import Mathlib

/-
  Verification of the bitcore wallet transaction-coordination core.

  Shallow embedding of:
  - the BTC chain coin selection and fee estimation
    (packages/bitcore-wallet-service/src/lib/chain/btc/index.ts),
  - the TxProposal state machine
    (packages/bitcore-wallet-service/src/lib/model/txproposal.ts, shipped
    alongside the client utils in this source drop),
  - the client-side Verifier (checkCopayers / checkAddress) and the address
    derivation helper (packages/bitcore-wallet-client/src/lib/common/utils.ts).

  JavaScript numbers are modelled as exact rationals (ℚ); satoshi amounts are
  integers (ℤ).  External library primitives (bitcore-lib key derivation,
  address construction, ECDSA) are abstracted as function parameters; constants
  taken from outside the embedded sources are marked in their doc comments.
-/

namespace Bitcore

/-- JavaScript Math.round / Number.toFixed(0) for the non-negative values that
occur in this code base: round half away from zero, i.e. floor (q + 1/2). -/
def jsRound (q : ℚ) : ℤ := ⌊q + 1/2⌋

/-- Stable insertion of an element with respect to a strict precedence test:
x is placed before the first element y such that y does not strictly precede x. -/
def insOrdered (lt : α → α → Bool) (x : α) : List α → List α
  | [] => [x]
  | y :: ys => if lt y x then y :: insOrdered lt x ys else x :: y :: ys

/-- Stable sort by a strict precedence test (models lodash _.sortBy and the
stable JavaScript Array.prototype.sort). -/
def insSort (lt : α → α → Bool) : List α → List α
  | [] => []
  | x :: xs => insOrdered lt x (insSort lt xs)

/-- lodash _.difference: the elements of the first list not present in the second. -/
def jsDifference (l1 l2 : List String) : List String := l1.filter (fun x => !(l2.contains x))

/-- Array.prototype.indexOf: index of the first occurrence, -1 when absent. -/
def jsIndexOf (l : List String) (s : String) : ℤ :=
  match l.findIdx? (fun x => x == s) with
  | some i => (i : ℤ)
  | none => -1

/-- JavaScript truthiness of an optional string (undefined and the empty string
are falsy). -/
def jsTruthyStr : Option String → Bool
  | none => false
  | some s => !(s == "")

/- Defaults (bitcore-wallet-service common/defaults.ts). -/

/-- Minimum allowed amount for tx outputs (including change), in satoshis. -/
def MIN_OUTPUT_AMOUNT : ℤ := 546

/-- Modelled from the spec: the external bitcore-lib constant
Transaction.DUST_AMOUNT for the Bitcoin family (546 satoshis); the library
itself is not part of the embedded sources. -/
def DUST_AMOUNT : ℤ := 546

/-- Defaults.MAX_TX_SIZE_IN_KB_BTC. -/
def MAX_TX_SIZE_IN_KB_BTC : ℚ := 100

/-- Defaults.UTXO_SELECTION_MAX_SINGLE_UTXO_FACTOR. -/
def UTXO_SELECTION_MAX_SINGLE_UTXO_FACTOR : ℚ := 2

/-- Defaults.UTXO_SELECTION_MIN_TX_AMOUNT_VS_UTXO_FACTOR (0.1). -/
def UTXO_SELECTION_MIN_TX_AMOUNT_VS_UTXO_FACTOR : ℚ := 1/10

/-- Defaults.UTXO_SELECTION_MAX_FEE_VS_TX_AMOUNT_FACTOR (0.05). -/
def UTXO_SELECTION_MAX_FEE_VS_TX_AMOUNT_FACTOR : ℚ := 1/20

/-- Defaults.UTXO_SELECTION_MAX_FEE_VS_SINGLE_UTXO_FEE_FACTOR. -/
def UTXO_SELECTION_MAX_FEE_VS_SINGLE_UTXO_FEE_FACTOR : ℚ := 5

/-- The dust threshold used by checkDust and by the change-folding logic of
selectTxInputs: max(Defaults.MIN_OUTPUT_AMOUNT, bitcoreLib.Transaction.DUST_AMOUNT). -/
def dustThreshold : ℤ := max MIN_OUTPUT_AMOUNT DUST_AMOUNT

/- Data model. -/

/-- A wallet UTXO as used by the coin selector. -/
structure Utxo where
  txid : String
  vout : ℕ
  address : String
  path : String
  satoshis : ℤ
  confirmations : ℕ
  locked : Bool
deriving Repr, DecidableEq, BEq

/-- Sum of the satoshi values of a list of UTXOs (lodash _.sumBy(utxos, 'satoshis')). -/
def sumSat (l : List Utxo) : ℤ := l.foldl (fun acc u => acc + u.satoshis) 0

/-- A proposal output. -/
structure Output where
  toAddress : Option String
  amount : ℤ
  script : Option String
deriving Repr, DecidableEq

/-- Script/address types of Constants.SCRIPT_TYPES. -/
inductive ScriptType where
  | P2PKH
  | P2WPKH
  | P2TR
  | P2WSH
  | P2SH
deriving Repr, DecidableEq, BEq

/-- TxProposal lifecycle states. -/
inductive TxpStatus where
  | temporary
  | pending
  | accepted
  | rejected
  | broadcasted
deriving Repr, DecidableEq, BEq

/-- Vote kinds. -/
inductive ActionType where
  | accept
  | reject
deriving Repr, DecidableEq, BEq

/-- A TxProposalAction (vote) record. -/
structure TxpAction where
  copayerId : String
  type : ActionType
  signatures : Option (List String)
  xpub : Option String
  comment : Option String
deriving Repr, DecidableEq

/-- The TxProposal fields relevant to the embedded operations (lifecycle,
votes, coin selection and fee estimation); the chain-specific payload fields of
the account-model chains are not used by the embedded code paths. -/
structure Txp where
  status : TxpStatus
  actions : List TxpAction
  walletM : ℤ
  walletN : ℤ
  requiredSignatures : ℤ
  requiredRejections : ℤ
  addressType : ScriptType
  inputs : List Utxo
  inputPaths : List String
  outputs : List Output
  changeAddress : Option String
  feePerKb : ℚ
  excludeUnconfirmedUtxos : Bool
  replaceTxByFee : Bool
  instantAcceptanceEscrow : ℤ
  multiTx : Bool
  txid : Option String
  txids : Option (List String)
  raw : Option String
  broadcastedOn : Option ℤ
deriving Repr, DecidableEq

/-- TxProposal.getTotalAmount: total amount of all outputs excluding change. -/
def getTotalAmount (txp : Txp) : ℤ := txp.outputs.foldl (fun acc o => acc + o.amount) 0

/- BtcChain size and fee estimation (btc/index.ts). -/

/-- Options passed to the estimators (opts.conservativeEstimation and
opts.instantAcceptanceEscrow truthiness). -/
structure SizeOpts where
  conservativeEstimation : Bool
  instantAcceptanceEscrow : Bool
deriving Repr, DecidableEq

/-- BtcChain.getEstimatedSizeForSingleInput.  SIGNATURE_SIZE = 72 + 1,
PUBKEY_SIZE = 33 + 1; the input size safety margin is the config default
inputSizeEstimationMargin = 2 when conservativeEstimation is set, else 0.
The switch default branch coincides with the P2SH branch. -/
def getEstimatedSizeForSingleInput (txp : Txp) (conservativeEstimation : Bool) : ℚ :=
  let inputSafetyMargin : ℚ := if conservativeEstimation then 2 else 0
  match txp.addressType with
  | .P2PKH => 148 + inputSafetyMargin
  | .P2WPKH => 69 + inputSafetyMargin
  | .P2TR => 58 + inputSafetyMargin
  | .P2WSH =>
      (⌈(32 + 4 + 1 + (5 + (txp.requiredSignatures : ℚ) * 74 + (txp.walletN : ℚ) * 34) / 4 + 4 : ℚ)⌉ : ℚ)
        + inputSafetyMargin
  | .P2SH => 46 + (txp.requiredSignatures : ℚ) * 73 + (txp.walletN : ℚ) * 34 + inputSafetyMargin

/-- BtcChain.getEstimatedSizeForAddressType: script size by bitcore address
type string, plus 8 (value) + 1 (script length). -/
def getEstimatedSizeForAddressType (addressType : String) : ℤ :=
  let scriptSize : ℤ :=
    if addressType = "pubkeyhash" then 25
    else if addressType = "scripthash" then 23
    else if addressType = "witnesspubkeyhash" then 22
    else if addressType = "witnessscripthash" then 34
    else 34
  scriptSize + 8 + 1

/-- BtcChain.getEstimatedSizeForSingleOutput; the bitcore Address(address).type
lookup is abstracted as the addrTypeOf parameter, and a missing address yields
the default type (empty string). -/
def getEstimatedSizeForSingleOutput (addrTypeOf : String → String) (address : Option String) : ℤ :=
  let addressType := match address with
    | some a => addrTypeOf a
    | none => ""
  getEstimatedSizeForAddressType addressType

/-- BtcChain.getEstimatedSize: fixed overhead (version, locktime, ninputs,
noutputs) plus per-input size times input count plus output sizes; falls back
to one default output when no output size accumulated; the size safety margin
is the config default sizeEstimationMargin = 0.01 when conservative. -/
def getEstimatedSize (addrTypeOf : String → String) (txp : Txp) (opts : SizeOpts) : ℤ :=
  let overhead : ℤ := 4 + 4 + 1 + 1
  let inputSize : ℚ := getEstimatedSizeForSingleInput txp opts.conservativeEstimation
  let nbInputs : ℕ := txp.inputs.length
  let addresses : List (Option String) :=
    txp.outputs.map (·.toAddress) ++ (match txp.changeAddress with
      | some a => [some a]
      | none => [])
  let outputsSize : ℤ := addresses.foldl (fun acc a => acc + getEstimatedSizeForSingleOutput addrTypeOf a) 0
  let outputsSize : ℤ :=
    if opts.instantAcceptanceEscrow then outputsSize + getEstimatedSizeForAddressType "scripthash"
    else outputsSize
  let outputsSize : ℤ := if outputsSize = 0 then getEstimatedSizeForSingleOutput addrTypeOf none else outputsSize
  let sizeSafetyMargin : ℚ := if opts.conservativeEstimation then 1/100 else 0
  ⌈((overhead : ℚ) + inputSize * (nbInputs : ℚ) + (outputsSize : ℚ)) * 1 + sizeSafetyMargin⌉

/-- BtcChain.getEstimatedFee.  When the proposal has inputs, no change address
and outputs with non-zero totals, the fee is the input/output difference;
otherwise (also when that difference is 0, which is falsy) the fee is
feePerKb * estimatedSize / 1000 floored at DUST_AMOUNT; the final
parseInt(fee.toFixed(0)) rounds half away from zero. -/
def getEstimatedFee (addrTypeOf : String → String) (txp : Txp) (opts : SizeOpts) : ℤ :=
  let feePre : Option ℤ :=
    if txp.inputs.length ≠ 0 ∧ txp.changeAddress = none ∧ txp.outputs.length ≠ 0 then
      let totalInputs := sumSat txp.inputs
      let totalOutputs := txp.outputs.foldl (fun acc o => acc + o.amount) 0
      if totalInputs ≠ 0 ∧ totalOutputs ≠ 0 then some (totalInputs - totalOutputs) else none
    else none
  match feePre with
  | some f =>
      if f = 0 then jsRound (max (txp.feePerKb * (getEstimatedSize addrTypeOf txp opts : ℚ) / 1000) (DUST_AMOUNT : ℚ))
      else f
  | none => jsRound (max (txp.feePerKb * (getEstimatedSize addrTypeOf txp opts : ℚ) / 1000) (DUST_AMOUNT : ℚ))

/- Coin selection (BtcChain.selectTxInputs). -/

/-- The classified selection errors returnable by the coin selector
(Errors.INSUFFICIENT_FUNDS, INSUFFICIENT_FUNDS_FOR_FEE, TX_MAX_SIZE_EXCEEDED,
LOCKED_FUNDS, and the generic new Error('Could not select tx inputs')). -/
inductive SelErr where
  | insufficientFunds
  | insufficientFundsForFee
  | txMaxSizeExceeded
  | lockedFunds
  | couldNotSelect
deriving Repr, DecidableEq

/-- The quantities selectTxInputs computes before running its inner select
closure: target amount (txp total plus escrow), escrow amount, base size and
fee, per-input size and fee, and the size cap. -/
structure SelectParams where
  txpAmount : ℤ
  escrowAmount : ℤ
  baseTxpSize : ℤ
  baseTxpFee : ℚ
  sizePerInput : ℚ
  feePerInput : ℚ
  maxTxSizeInKb : ℚ
deriving Repr, DecidableEq

/-- The mutable state of the small-input accumulation loop inside select.
broke records that the _.each callback returned false (loop break);
reachedTarget is a ghost flag recording that the break was taken at the
"netTotal >= fullTxpAmount" check (the branch containing the dust folding). -/
structure LoopSt where
  total : ℤ
  netTotal : ℚ
  selected : List Utxo
  fee : Option ℤ
  fullTxpAmount : ℤ
  error : Option SelErr
  broke : Bool
  reachedTarget : Bool
deriving Repr, DecidableEq

/-- One iteration of the _.each(smallInputs, ...) callback of select: add the
input, recompute size/fee, then the early-stop checks (size cap; utxo-too-small
and fee-versus-single-input heuristics when big inputs exist), then the target
check with dust folding.  Ratios are exact rationals where the source divides
floating point numbers. -/
def selStep (P : SelectParams) (hasBigInputs : Bool) (st : LoopSt) (input : Utxo) : LoopSt :=
  let netInputAmount : ℚ := (input.satoshis : ℚ) - P.feePerInput
  let selected := st.selected ++ [input]
  let total := st.total + input.satoshis
  let netTotal := st.netTotal + netInputAmount
  let txpSize : ℚ := (P.baseTxpSize : ℚ) + (selected.length : ℚ) * P.sizePerInput
  let fee : ℤ := jsRound (P.baseTxpFee + (selected.length : ℚ) * P.feePerInput)
  let fullTxpAmount : ℤ := if P.escrowAmount ≠ 0 then P.txpAmount + fee else P.txpAmount
  let st' : LoopSt :=
    { total := total, netTotal := netTotal, selected := selected, fee := some fee,
      fullTxpAmount := fullTxpAmount, error := st.error, broke := false, reachedTarget := false }
  if txpSize / 1000 > P.maxTxSizeInKb then
    { st' with error := some .txMaxSizeExceeded, broke := true }
  else if hasBigInputs ∧ netInputAmount / (fullTxpAmount : ℚ) < UTXO_SELECTION_MIN_TX_AMOUNT_VS_UTXO_FACTOR then
    { st' with broke := true }
  else if hasBigInputs ∧ (fee : ℚ) / (fullTxpAmount : ℚ) > UTXO_SELECTION_MAX_FEE_VS_TX_AMOUNT_FACTOR
      ∧ (fee : ℚ) / (P.baseTxpFee + P.feePerInput) > UTXO_SELECTION_MAX_FEE_VS_SINGLE_UTXO_FEE_FACTOR then
    { st' with broke := true }
  else if (fullTxpAmount : ℚ) ≤ netTotal then
    let changeAmount : ℤ := total - fullTxpAmount - fee
    let fee : ℤ := if 0 < changeAmount ∧ changeAmount ≤ dustThreshold then fee + changeAmount else fee
    { st' with fee := some fee, broke := true, reachedTarget := true }
  else st'

/-- The _.each loop over smallInputs: runs selStep until the callback breaks. -/
def accumulate (P : SelectParams) (hasBigInputs : Bool) : List Utxo → LoopSt → LoopSt
  | [], st => st
  | u :: rest, st => if st.broke then st else accumulate P hasBigInputs rest (selStep P hasBigInputs st u)

/-- Loop state before the first iteration: total 0, netTotal -baseTxpFee,
nothing selected, fee undefined, fullTxpAmount = txpAmount. -/
def initLoopSt (P : SelectParams) : LoopSt :=
  { total := 0, netTotal := -P.baseTxpFee, selected := [], fee := none,
    fullTxpAmount := P.txpAmount, error := none, broke := false, reachedTarget := false }

/-- The "remove utxos not economically worth to send" filter of select: keep a
utxo when its txid is required (replace-by-fee) or its value exceeds the
per-input fee. -/
def econKeep (P : SelectParams) (requiredTxids : List String) (u : Utxo) : Bool :=
  requiredTxids.contains u.txid || !((u.satoshis : ℚ) ≤ P.feePerInput)

/-- bigInputThreshold = txpAmount * UTXO_SELECTION_MAX_SINGLE_UTXO_FACTOR +
(baseTxpFee + feePerInput). -/
def bigInputThreshold (P : SelectParams) : ℚ :=
  (P.txpAmount : ℚ) * UTXO_SELECTION_MAX_SINGLE_UTXO_FACTOR + (P.baseTxpFee + P.feePerInput)

/-- Strict lexicographic precedence for _.sortBy with iteratees
[u => !requiredTxids.includes(u.txid), key]: required inputs first (false sorts
before true), then ascending by key. -/
def ltSortKeys (ka kb : Bool) (x y : ℤ) : Bool :=
  if ka = kb then decide (x < y) else !ka && kb

/-- Sort precedence for bigInputs: required first, then ascending satoshis. -/
def ltBig (requiredTxids : List String) (a b : Utxo) : Bool :=
  ltSortKeys (!requiredTxids.contains a.txid) (!requiredTxids.contains b.txid) a.satoshis b.satoshis

/-- Sort precedence for smallInputs: required first, then descending satoshis. -/
def ltSmall (requiredTxids : List String) (a b : Utxo) : Bool :=
  ltSortKeys (!requiredTxids.contains a.txid) (!requiredTxids.contains b.txid) (-a.satoshis) (-b.satoshis)

/-- The code after the accumulation loop in select: when the loop did not reach
the target, discard the accumulated selection and (when available) fall back to
the single cheapest sufficient big input, with fee = round(baseTxpFee +
feePerInput). -/
def selectPostLoop (P : SelectParams) (bigInputs : List Utxo) (st : LoopSt) : LoopSt :=
  if st.netTotal < (st.fullTxpAmount : ℚ) then
    match bigInputs with
    | [] => { st with selected := [] }
    | input :: _ =>
        let total := input.satoshis
        let fee := jsRound (P.baseTxpFee + P.feePerInput)
        { st with
          selected := [input],
          total := total,
          fee := some fee,
          netTotal := ((total - fee : ℤ) : ℚ) }
  else st

/-- The final classification of select: an empty selection yields the recorded
loop error or INSUFFICIENT_FUNDS_FOR_FEE; otherwise the selected inputs and fee
are returned.  (A non-empty selection always carries a fee; the last arm is
unreachable and mirrors the source returning an undefined fee.) -/
def selectFinish (st : LoopSt) : Except SelErr (List Utxo × ℤ) :=
  match st.selected, st.fee with
  | [], _ => .error (st.error.getD .insufficientFundsForFee)
  | sel, some fee => .ok (sel, fee)
  | _ :: _, none => .error .insufficientFundsForFee

/-- The required txids of a replace-by-fee selection: the txids of the
requiredInputs when some are given and the proposal replaces a transaction. -/
def requiredTxidsOf (requiredInputs : List Utxo) (replaceTxByFee : Bool) : List String :=
  if requiredInputs.length > 0 ∧ replaceTxByFee then requiredInputs.map (·.txid) else []

/-- The part of select after the raw-total check: economical filter, net-value
check, big/small partition, small-input accumulation, big input fallback, and
the final classification. -/
def selectEcon (P : SelectParams) (requiredTxids : List String) (utxosIn : List Utxo) :
    Except SelErr (List Utxo × ℤ) :=
  let utxos := utxosIn.filter (econKeep P requiredTxids)
  let totalValueInUtxos := sumSat utxos
  let netValueInUtxos : ℚ :=
    (totalValueInUtxos : ℚ) - (P.baseTxpFee - (utxos.length : ℚ) * P.feePerInput)
  if netValueInUtxos < (P.txpAmount : ℚ) then .error .insufficientFundsForFee
  else
    let bigInputs := insSort (ltBig requiredTxids)
      (utxos.filter (fun u => decide ((u.satoshis : ℚ) > bigInputThreshold P)))
    let smallInputs := insSort (ltSmall requiredTxids)
      (utxos.filter (fun u => !(decide ((u.satoshis : ℚ) > bigInputThreshold P))))
    selectFinish (selectPostLoop P bigInputs (accumulate P (!bigInputs.isEmpty) smallInputs (initLoopSt P)))

/-- The select closure of BtcChain.selectTxInputs: raw-total check followed by
the economical selection stages. -/
def select (P : SelectParams) (utxosIn : List Utxo) (requiredInputs : List Utxo)
    (replaceTxByFee : Bool) : Except SelErr (List Utxo × ℤ) :=
  let requiredTxids := requiredTxidsOf requiredInputs replaceTxByFee
  let totalValueInUtxos := sumSat utxosIn
  if totalValueInUtxos < P.txpAmount then .error .insufficientFunds
  else selectEcon P requiredTxids utxosIn

/-- The opts argument of selectTxInputs (payProUrl presence switches
conservative estimation; instantAcceptanceEscrow 0 models a missing value). -/
structure SelOpts where
  payProUrl : Bool
  instantAcceptanceEscrow : ℤ
  utxosToExclude : List String
  inputs : List Utxo
  zceCompatible : Bool
deriving Repr, DecidableEq

/-- The exclusion key utxo.txid + ':' + utxo.vout. -/
def utxoExcludeKey (u : Utxo) : String := u.txid ++ ":" ++ toString u.vout

/-- The filter body of the sanitizeUtxos closure: drop locked utxos, drop
unconfirmed utxos when the proposal excludes them (unless replace-by-fee), drop
explicitly excluded utxos. -/
def sanitizeKeep (txp : Txp) (opts : SelOpts) (u : Utxo) : Bool :=
  if u.locked then false
  else if txp.excludeUnconfirmedUtxos && !txp.replaceTxByFee && decide (u.confirmations = 0) then false
  else if opts.utxosToExclude.contains (utxoExcludeKey u) then false
  else true

/-- The sanitizeUtxos closure of selectTxInputs. -/
def sanitizeUtxos (txp : Txp) (opts : SelOpts) (utxos : List Utxo) : List Utxo :=
  utxos.filter (sanitizeKeep txp opts)

/-- BtcChain.totalizeUtxos. -/
structure UtxoBalance where
  totalAmount : ℤ
  lockedAmount : ℤ
  totalConfirmedAmount : ℤ
  lockedConfirmedAmount : ℤ
  availableAmount : ℤ
  availableConfirmedAmount : ℤ
deriving Repr, DecidableEq

/-- BtcChain.totalizeUtxos: totals over all, locked, confirmed and
locked-and-confirmed utxos. -/
def totalizeUtxos (utxos : List Utxo) : UtxoBalance :=
  let totalAmount := sumSat utxos
  let lockedAmount := sumSat (utxos.filter (·.locked))
  let totalConfirmedAmount := sumSat (utxos.filter (fun u => decide (u.confirmations ≠ 0)))
  let lockedConfirmedAmount := sumSat ((utxos.filter (·.locked)).filter (fun u => decide (u.confirmations ≠ 0)))
  { totalAmount := totalAmount, lockedAmount := lockedAmount,
    totalConfirmedAmount := totalConfirmedAmount, lockedConfirmedAmount := lockedConfirmedAmount,
    availableAmount := totalAmount - lockedAmount,
    availableConfirmedAmount := totalConfirmedAmount - lockedConfirmedAmount }

/-- lodash _.uniqBy(..., 'address'): keep the first utxo for each address. -/
def uniqByAddress : List Utxo → List String → List Utxo
  | [], _ => []
  | u :: rest, seen =>
      if seen.contains u.address then uniqByAddress rest seen
      else u :: uniqByAddress rest (u.address :: seen)

/-- Replace-by-fee candidate precedence: the comparator
(a, b) => txIdArray.indexOf(b.txid) - txIdArray.indexOf(a.txid) sorts
descending by index, so inputs of the replaced transaction come first. -/
def ltRbf (txIdArray : List String) (a b : Utxo) : Bool :=
  decide (jsIndexOf txIdArray b.txid < jsIndexOf txIdArray a.txid)

/-- Candidate utxos for one confirmation group: filter by confirmation count;
under instant-acceptance escrow with a ZCE-compatible wallet deduplicate by
address (the preceding sort comparator reads the undefined amount property, is
NaN for every pair, and leaves the order unchanged); under replace-by-fee sort
the inputs of the replaced transaction first. -/
def groupCandidates (txp : Txp) (opts : SelOpts) (utxos : List Utxo) (group : ℕ) : List Utxo :=
  let c := utxos.filter (fun u => decide (u.confirmations ≥ group))
  let c := if opts.instantAcceptanceEscrow ≠ 0 && opts.zceCompatible then uniqByAddress c [] else c
  if txp.replaceTxByFee then insSort (ltRbf (opts.inputs.map (·.txid))) c else c

/-- The async.whilst loop over confirmation groups: skip a group whose
candidate set has the same size as the previous one, try select, keep the first
success, remember the last selection error. -/
def selectTxInputsLoop (P : SelectParams) (txp : Txp) (opts : SelOpts) (utxos : List Utxo) :
    List ℕ → Option ℕ → Option SelErr → Except SelErr (List Utxo × ℤ)
  | [], _, selectionError => .error (selectionError.getD .couldNotSelect)
  | g :: rest, lastGroupLength, selectionError =>
      let candidateUtxos := groupCandidates txp opts utxos g
      if lastGroupLength = some candidateUtxos.length then
        selectTxInputsLoop P txp opts utxos rest lastGroupLength selectionError
      else
        match select P candidateUtxos txp.inputs txp.replaceTxByFee with
        | .error e => selectTxInputsLoop P txp opts utxos rest (some candidateUtxos.length) (some e)
        | .ok r => .ok r

/-- The parameters selectTxInputs computes from the proposal and options before
selection: conservative estimation is driven by payProUrl, the escrow amount is
added to the target, and base/per-input fees come from the size estimators. -/
def mkSelectParams (addrTypeOf : String → String) (txp : Txp) (opts : SelOpts) : SelectParams :=
  let conservativeEstimation := opts.payProUrl
  let sizeOpts : SizeOpts := ⟨conservativeEstimation, opts.instantAcceptanceEscrow ≠ 0⟩
  let escrowAmount := opts.instantAcceptanceEscrow
  let txpAmount := getTotalAmount txp + escrowAmount
  let baseTxpSize := getEstimatedSize addrTypeOf txp sizeOpts
  let baseTxpFee := (baseTxpSize : ℚ) * txp.feePerKb / 1000
  let sizePerInput := getEstimatedSizeForSingleInput txp conservativeEstimation
  let feePerInput := sizePerInput * txp.feePerKb / 1000
  { txpAmount := txpAmount, escrowAmount := escrowAmount, baseTxpSize := baseTxpSize,
    baseTxpFee := baseTxpFee, sizePerInput := sizePerInput, feePerInput := feePerInput,
    maxTxSizeInKb := MAX_TX_SIZE_IN_KB_BTC }

/-- BtcChain.selectTxInputs on the selection path (no pre-set inputs short
circuit): balance checks against the proposal total, sanitization, then the
confirmation-group ladder [6, 1] (plus 0 unless unconfirmed utxos are
excluded).  The returned inputs are the ones assigned to the proposal (the
source shuffles them, a value-preserving permutation) with the fee computed by
select; the final checkTx revalidation goes through the external bitcore
library and is outside the embedding. -/
def selectTxInputs (addrTypeOf : String → String) (txp : Txp) (opts : SelOpts)
    (utxos : List Utxo) : Except SelErr (List Utxo × ℤ) :=
  let P := mkSelectParams addrTypeOf txp opts
  let balance := totalizeUtxos utxos
  let totalAmount :=
    if txp.excludeUnconfirmedUtxos && !txp.replaceTxByFee then balance.totalConfirmedAmount
    else balance.totalAmount
  let availableAmount :=
    if txp.excludeUnconfirmedUtxos && !txp.replaceTxByFee then balance.availableConfirmedAmount
    else balance.availableAmount
  if totalAmount < getTotalAmount txp then .error .insufficientFunds
  else if availableAmount < getTotalAmount txp then .error .lockedFunds
  else
    let sanitized := sanitizeUtxos txp opts utxos
    let groups : List ℕ := if !txp.excludeUnconfirmedUtxos then [6, 1, 0] else [6, 1]
    selectTxInputsLoop P txp opts sanitized groups none none

/- TxProposal state machine (model/txproposal.ts). -/

/-- Count of actions of one kind (lodash _.countBy(actions, 'type')). -/
def countActionsOfType (t : ActionType) (actions : List TxpAction) : ℕ :=
  (actions.filter (fun a => decide (a.type = t))).length

/-- TxProposal.isAccepted: votes['accept'] >= requiredSignatures.  When there
is no accept vote, countBy yields no 'accept' key and the JavaScript comparison
undefined >= n is false, hence the extra 0 < count conjunct. -/
def isAccepted (txp : Txp) : Bool :=
  let c := countActionsOfType .accept txp.actions
  decide (0 < c) && decide (txp.requiredSignatures ≤ (c : ℤ))

/-- TxProposal.isRejected: votes['reject'] >= requiredRejections, with the same
undefined-key caveat as isAccepted. -/
def isRejected (txp : Txp) : Bool :=
  let c := countActionsOfType .reject txp.actions
  decide (0 < c) && decide (txp.requiredRejections ≤ (c : ℤ))

/-- TxProposal.isPending: status not in ['temporary', 'broadcasted', 'rejected']. -/
def isPending (txp : Txp) : Bool :=
  !([TxpStatus.temporary, TxpStatus.broadcasted, TxpStatus.rejected].contains txp.status)

/-- TxProposal.isTemporary. -/
def isTemporary (txp : Txp) : Bool := txp.status == .temporary

/-- TxProposal.isBroadcasted. -/
def isBroadcasted (txp : Txp) : Bool := txp.status == .broadcasted

/-- TxProposal._updateStatus: only a pending proposal changes status; rejection
is evaluated before acceptance. -/
def updateStatus (txp : Txp) : Txp :=
  if txp.status ≠ .pending then txp
  else if isRejected txp then { txp with status := .rejected }
  else if isAccepted txp then { txp with status := .accepted }
  else txp

/-- TxProposalAction.create. -/
def mkAction (copayerId : String) (type : ActionType) (comment : Option String)
    (signatures : Option (List String)) (xpub : Option String) : TxpAction :=
  { copayerId := copayerId, type := type, signatures := signatures, xpub := xpub, comment := comment }

/-- TxProposal.addAction: append the vote action (never mutated afterwards) and
recompute the status. -/
def addAction (txp : Txp) (copayerId : String) (type : ActionType) (comment : Option String)
    (signatures : Option (List String)) (xpub : Option String) : Txp :=
  updateStatus { txp with actions := txp.actions ++ [mkAction copayerId type comment signatures xpub] }

/-- TxProposal.reject. -/
def reject (txp : Txp) (copayerId : String) (reason : Option String) : Txp :=
  addAction txp copayerId .reject reason none none

/-- The index counter of BtcChain.addSignaturesToBitcoreTx: each signature is
tried at the current input index; a signature that fails to apply is swallowed
by the empty catch block and leaves the index unchanged.  The validity of a
signature at an input index (derivation of the public key at the input path
and bitcore's addSignature check) is abstracted as the valid parameter. -/
def addSigsIndex (valid : ℕ → String → Bool) : List String → ℕ → ℕ
  | [], i => i
  | s :: rest, i => if valid i s then addSigsIndex valid rest (i + 1) else addSigsIndex valid rest i

/-- BtcChain.addSignaturesToBitcoreTx as a success predicate: it throws (false)
when the signature count differs from the input count, or when the final index
differs from the input count ('Wrong signatures'). -/
def addSignaturesToBitcoreTx (valid : ℕ → String → Bool) (nInputs : ℕ) (signatures : List String) : Bool :=
  if signatures.length ≠ nInputs then false
  else decide (addSigsIndex valid signatures 0 = nInputs)

/-- TxProposal.sign: build the unsigned transaction (abstracted as buildTx,
returning its serialization and id, or none when the chain adapter throws),
test the signatures, and only on success append the accept action; when the
new status is accepted, record the raw transaction and its id(s).  Any throw is
caught and reported as false with the proposal untouched. -/
def sign (valid : ℕ → String → Bool) (buildTx : Txp → Option (String × String)) (txp : Txp)
    (copayerId : String) (signatures : List String) (xpub : String) : Bool × Txp :=
  match buildTx txp with
  | none => (false, txp)
  | some (raw, txid) =>
      if addSignaturesToBitcoreTx valid txp.inputs.length signatures then
        let txp := addAction txp copayerId .accept none (some signatures) (some xpub)
        if txp.status = .accepted then
          (true, { txp with
                    raw := some raw,
                    txid := some txid,
                    txids := if txp.multiTx then some [txid] else txp.txids })
        else (true, txp)
      else (false, txp)

/-- TxProposal.setBroadcasted: $.checkState(this.txid) throws (none) when the
transaction id is not a truthy string; otherwise set status broadcasted and
record the broadcast timestamp (Date.now()/1000, the ambient now parameter). -/
def setBroadcasted (txp : Txp) (now : ℤ) : Option Txp :=
  if jsTruthyStr txp.txid then some { txp with status := .broadcasted, broadcastedOn := some now }
  else none

/-- The object returned by TxProposal.toObject: the proposal fields plus the
computed isPending flag. -/
structure TxpObject where
  txp : Txp
  isPending : Bool
deriving Repr, DecidableEq

/-- TxProposal.toObject: a deep clone of the proposal with x.isPending =
this.isPending(). -/
def toObject (txp : Txp) : TxpObject := { txp := txp, isPending := isPending txp }

/-- The TxProposal.create options relevant to the embedded lifecycle fields. -/
structure CreateOpts where
  walletM : ℤ
  walletN : ℤ
  outputs : List Output
  feePerKb : ℚ
  excludeUnconfirmedUtxos : Bool
  addressType : Option ScriptType
  inputs : List Utxo
  multiTx : Bool
  instantAcceptanceEscrow : ℤ
  replaceTxByFee : Bool
deriving Repr, DecidableEq

/-- TxProposal.create restricted to the lifecycle fields: a temporary proposal
with no actions, requiredSignatures = walletM and requiredRejections =
min(walletM, walletN - walletM + 1); the address type defaults to P2SH for
multi-copayer wallets and P2PKH otherwise; setInputs records inputs and their
derivation paths.  (The randomized outputOrder and the chain-specific payload
fields are not part of the embedded lifecycle.) -/
def TxProposalCreate (opts : CreateOpts) : Txp :=
  { status := .temporary,
    actions := [],
    walletM := opts.walletM,
    walletN := opts.walletN,
    requiredSignatures := opts.walletM,
    requiredRejections := min opts.walletM (opts.walletN - opts.walletM + 1),
    addressType := opts.addressType.getD (if opts.walletN > 1 then .P2SH else .P2PKH),
    inputs := opts.inputs,
    inputPaths := opts.inputs.map (·.path),
    outputs := opts.outputs,
    changeAddress := none,
    feePerKb := opts.feePerKb,
    excludeUnconfirmedUtxos := opts.excludeUnconfirmedUtxos,
    replaceTxByFee := opts.replaceTxByFee,
    instantAcceptanceEscrow := opts.instantAcceptanceEscrow,
    multiTx := opts.multiTx,
    txid := none,
    txids := none,
    raw := none,
    broadcastedOn := none }

/-- A vote submitted to the proposal, as consumed by addAction. -/
structure VoteInput where
  copayerId : String
  type : ActionType
  comment : Option String
  signatures : Option (List String)
  xpub : Option String
deriving Repr, DecidableEq

/-- Apply a sequence of votes through addAction. -/
def applyVotes (txp : Txp) (votes : List VoteInput) : Txp :=
  votes.foldl (fun t v => addAction t v.copayerId v.type v.comment v.signatures v.xpub) txp

/- Verifier (bitcore-wallet-client verifier.ts) and Utils.deriveAddress. -/

/-- A JavaScript numeric cell that may hold undefined or NaN (the states the
checkCopayers uniqueness counter actually reaches). -/
inductive JsNum where
  | undef
  | nan
  | num (n : ℤ)
deriving Repr, DecidableEq

/-- JavaScript truthiness of such a cell: undefined and NaN are falsy. -/
def jsTruthy : JsNum → Bool
  | .undef => false
  | .nan => false
  | .num n => !(n == 0)

/-- JavaScript increment: undefined++ and NaN++ store NaN. -/
def jsIncr : JsNum → JsNum
  | .undef => .nan
  | .nan => .nan
  | .num n => .num (n + 1)

/-- A copayer entry as reported by the server. -/
structure CopayerEntry where
  name : Option String
  encryptedName : Option String
  xPubKey : Option String
  requestPubKey : Option String
  signature : Option String
deriving Repr, DecidableEq

/-- Utils.getCopayerHash: [name, xPubKey, requestPubKey].join('|'). -/
def getCopayerHash (name xPubKey requestPubKey : String) : String :=
  name ++ "|" ++ xPubKey ++ "|" ++ requestPubKey

/-- One iteration body of the checkCopayers loop.  The expression
uniq[copayers.xPubKey]++ reads the xPubKey property of the copayers ARRAY,
which is undefined, so every iteration post-increments the same cell (key
"undefined"); the cell holds undefined then NaN, both falsy, so the duplicate
branch can never set the error flag.  The signature check over
name|xPubKey|requestPubKey against the wallet public key is abstracted as the
verify parameter. -/
def checkCopayersStep (verify : String → String → String → Bool) (walletPubKey : String)
    (c : CopayerEntry) (uniqCell : JsNum) (error : Bool) : JsNum × Bool :=
  let error := error || jsTruthy uniqCell
  let uniqCell := jsIncr uniqCell
  if !(jsTruthyStr c.encryptedName || jsTruthyStr c.name) || !jsTruthyStr c.xPubKey
      || !jsTruthyStr c.requestPubKey || !jsTruthyStr c.signature then
    (uniqCell, true)
  else
    let nm := if jsTruthyStr c.encryptedName then c.encryptedName.getD "" else c.name.getD ""
    let hash := getCopayerHash nm (c.xPubKey.getD "") (c.requestPubKey.getD "")
    if !(verify hash (c.signature.getD "") walletPubKey) then (uniqCell, true)
    else (uniqCell, error)

/-- The for-of loop of checkCopayers: at the top of each iteration a previously
set error flag makes the whole function return undefined (none); otherwise the
iteration body runs.  A completed loop yields the final error flag. -/
def checkCopayersLoop (verify : String → String → String → Bool) (walletPubKey : String) :
    List CopayerEntry → JsNum → Bool → Option Bool
  | [], _, error => some error
  | c :: rest, uniqCell, error =>
      if error then none
      else
        let r := checkCopayersStep verify walletPubKey c uniqCell error
        checkCopayersLoop verify walletPubKey rest r.1 r.2

/-- Verifier.checkCopayers.  walletPubKey is the public key derived from the
wallet private key (external derivation, passed in); credN and credXPubKey are
the credentials' copayer count and own extended public key.  The result none
models the undefined early return. -/
def checkCopayers (verify : String → String → String → Bool) (walletPubKey : String)
    (credN : ℤ) (credXPubKey : String) (copayers : List CopayerEntry) : Option Bool :=
  if (copayers.length : ℤ) ≠ credN then some false
  else
    match checkCopayersLoop verify walletPubKey copayers .undef false with
    | none => none
    | some true => some false
    | some false =>
        if !((copayers.map (·.xPubKey)).contains (some credXPubKey)) then some false
        else some true

/-- Constants.UTXO_CHAINS, modelled from the spec: the UTXO-model
(Bitcoin-family) chains handled by the bitcore path of deriveAddress; the
constants module itself is not part of the embedded sources. -/
def UTXO_CHAINS : List String := ["btc", "bch", "doge", "ltc"]

/-- An entry of the wallet public-key ring. -/
structure PKRingEntry where
  xPubKey : String
  requestPubKey : String
deriving Repr, DecidableEq

/-- An escrow input (only its derivation path is consumed). -/
structure EscrowInput where
  path : String
deriving Repr, DecidableEq

/-- The record returned by Utils.deriveAddress. -/
structure DerivedAddress where
  address : String
  path : String
  publicKeys : List String
deriving Repr, DecidableEq

/-- The external bitcore-lib / Deriver primitives consumed by deriveAddress,
abstracted: HD child public key derivation, multisig / escrow / single-key
address construction, the external Deriver entry points, and the derivation
path parser (addressIndex, isChange). -/
structure DerivePrims where
  deriveChildPub : String → String → String
  createMultisig : List String → ℤ → String → Bool → Option String → String
  createEscrow : List String → String → String → String
  fromPublicKey : String → String → Option String → String
  deriverGetAddress : String → String → String → ScriptType → String
  deriverDeriveAddress : String → String → String → String → Bool → String
  parsePath : String → String × Bool

/-- The address and public-key list computed by Utils.deriveAddress: an
external (hardware or client-derived) source key short-circuits to the Deriver;
otherwise child keys are derived along the path for every ring entry and the
address is built according to the script type (multisig for P2WSH/P2SH, escrow
for P2SH with escrow inputs — which also rewrites the public-key list — and
single-key otherwise; non-UTXO chains derive P2PKH through the Deriver). -/
def deriveAddressCore (prims : DerivePrims) (scriptType : ScriptType)
    (publicKeyRing : List PKRingEntry) (path : String) (m : ℤ) (network : String) (chain : String)
    (escrowInputs : Option (List EscrowInput))
    (hardwareSourcePublicKey clientDerivedPublicKey : Option String) : String × List String :=
  match hardwareSourcePublicKey.orElse (fun _ => clientDerivedPublicKey) with
  | some externSourcePublicKey =>
      (prims.deriverGetAddress chain.toUpper network externSourcePublicKey scriptType,
        [externSourcePublicKey])
  | none =>
      let chain := if chain = "" then "btc" else chain
      let publicKeys := publicKeyRing.map (fun item => prims.deriveChildPub item.xPubKey path)
      match scriptType with
      | .P2WSH => (prims.createMultisig publicKeys m network false (some "witnessscripthash"), publicKeys)
      | .P2SH =>
          match escrowInputs with
          | some inputs =>
              let xpub := (publicKeyRing.headD ⟨"", ""⟩).xPubKey
              let inputPublicKeys := inputs.map (fun input => prims.deriveChildPub xpub input.path)
              (prims.createEscrow inputPublicKeys (publicKeys.headD "") network,
                publicKeys.headD "" :: inputPublicKeys)
          | none => (prims.createMultisig publicKeys m network false none, publicKeys)
      | .P2WPKH => (prims.fromPublicKey (publicKeys.headD "") network (some "witnesspubkeyhash"), publicKeys)
      | .P2PKH =>
          if UTXO_CHAINS.contains chain then (prims.fromPublicKey (publicKeys.headD "") network none, publicKeys)
          else
            let parsed := prims.parsePath path
            (prims.deriverDeriveAddress chain.toUpper network ((publicKeyRing.headD ⟨"", ""⟩).xPubKey)
              parsed.1 parsed.2, publicKeys)
      | .P2TR => (prims.fromPublicKey (publicKeys.headD "") network (some "taproot"), publicKeys)

/-- Utils.deriveAddress: the derived address, the requested path, and the
public keys (as strings). -/
def deriveAddress (prims : DerivePrims) (scriptType : ScriptType)
    (publicKeyRing : List PKRingEntry) (path : String) (m : ℤ) (network : String) (chain : String)
    (escrowInputs : Option (List EscrowInput))
    (hardwareSourcePublicKey clientDerivedPublicKey : Option String) : DerivedAddress :=
  let core := deriveAddressCore prims scriptType publicKeyRing path m network chain escrowInputs
    hardwareSourcePublicKey clientDerivedPublicKey
  { address := core.1, path := path, publicKeys := core.2 }

/-- The credentials fields consumed by Verifier.checkAddress. -/
structure Credentials where
  network : String
  addressType : ScriptType
  publicKeyRing : List PKRingEntry
  m : ℤ
  n : ℤ
  chain : String
  xPubKey : String
  hardwareSourcePublicKey : Option String
  clientDerivedPublicKey : Option String
  isComplete : Bool
deriving Repr, DecidableEq

/-- An address record as reported by the server. -/
structure ReportedAddress where
  type : Option ScriptType
  address : String
  path : String
  publicKeys : List String
deriving Repr, DecidableEq

/-- The network substitution at the top of checkAddress: the process-wide
regtest flag turns a testnet network into regtest. -/
def regtestAdjustedNetwork (useRegtest : Bool) (network : String) : String :=
  if network = "testnet" && useRegtest then "regtest" else network

/-- Verifier.checkAddress: recompute the address locally from the credentials
(using the reported type if present, else the wallet address type, and the
reported path) and require the reported address to match and the reported
public keys to cover the local ones.  The $.checkState(credentials.isComplete())
precondition is a thrown assertion, taken as a hypothesis where needed. -/
def checkAddress (prims : DerivePrims) (useRegtest : Bool) (credentials : Credentials)
    (address : ReportedAddress) (escrowInputs : Option (List EscrowInput)) : Bool :=
  let network := regtestAdjustedNetwork useRegtest credentials.network
  let localAddr := deriveAddress prims (address.type.getD credentials.addressType)
    credentials.publicKeyRing address.path credentials.m network credentials.chain escrowInputs
    credentials.hardwareSourcePublicKey credentials.clientDerivedPublicKey
  (localAddr.address == address.address) && (jsDifference localAddr.publicKeys address.publicKeys == [])

/- Basic lemmas. -/

/-- jsRound is monotone. -/
theorem jsRound_mono {a b : ℚ} (h : a ≤ b) : jsRound a ≤ jsRound b :=
  Int.floor_le_floor (by linarith)

/-- jsRound is the identity on integers. -/
theorem jsRound_intCast (z : ℤ) : jsRound (z : ℚ) = z := by
  unfold jsRound
  rw [Int.floor_eq_iff]
  constructor <;> norm_num

/-- An integer bound above a rational also bounds its jsRound. -/
theorem jsRound_le_of_le {k : ℤ} {q : ℚ} (h : q ≤ (k : ℚ)) : jsRound q ≤ k := by
  have h2 := jsRound_mono h
  rwa [jsRound_intCast] at h2

/-- jsRound of a non-negative rational is non-negative. -/
theorem jsRound_nonneg {q : ℚ} (h : 0 ≤ q) : 0 ≤ jsRound q := by
  have h2 := jsRound_mono h
  rwa [show jsRound (0 : ℚ) = 0 from jsRound_intCast 0] at h2

/-- jsRound commutes with max against an integer bound. -/
theorem jsRound_max_intCast (q : ℚ) (D : ℤ) : jsRound (max q (D : ℚ)) = max (jsRound q) D := by
  rcases le_total q (D : ℚ) with h | h
  · rw [max_eq_right h, jsRound_intCast, max_eq_right (jsRound_le_of_le h)]
  · have hD : D ≤ jsRound q := by
      have h2 := jsRound_mono h
      rwa [jsRound_intCast] at h2
    rw [max_eq_left h, max_eq_left hD]

/-- sumSat over an appended element. -/
theorem sumSat_append_single (l : List Utxo) (u : Utxo) : sumSat (l ++ [u]) = sumSat l + u.satoshis := by
  simp [sumSat, List.foldl_append]

/-- sumSat of a singleton. -/
theorem sumSat_singleton (u : Utxo) : sumSat [u] = u.satoshis := by
  simp [sumSat]

/-- Membership through stable insertion. -/
theorem mem_insOrdered (lt : α → α → Bool) (x : α) (l : List α) (a : α) :
    a ∈ insOrdered lt x l ↔ a = x ∨ a ∈ l := by
  induction l with
  | nil => simp [insOrdered]
  | cons y ys ih =>
      simp only [insOrdered]
      split
      · rw [List.mem_cons, ih, List.mem_cons]
        tauto
      · rw [List.mem_cons]

/-- Membership through the stable sort. -/
theorem mem_insSort (lt : α → α → Bool) (l : List α) (a : α) : a ∈ insSort lt l ↔ a ∈ l := by
  induction l with
  | nil => simp [insSort]
  | cons x xs ih => simp [insSort, mem_insOrdered, ih]

/- TxProposal lemmas. -/

/-- Action count over an appended action. -/
theorem countActionsOfType_append (t : ActionType) (l : List TxpAction) (a : TxpAction) :
    countActionsOfType t (l ++ [a]) = countActionsOfType t l + (if a.type = t then 1 else 0) := by
  simp only [countActionsOfType, List.filter_append, List.length_append]
  split <;> simp_all

/-- addAction never changes the status of a non-pending proposal. -/
theorem addAction_preserves_nonpending (txp : Txp) (c : String) (ty : ActionType)
    (cm : Option String) (sg : Option (List String)) (xp : Option String)
    (h : txp.status ≠ .pending) : (addAction txp c ty cm sg xp).status = txp.status := by
  unfold addAction updateStatus
  simp [h]

/- A concrete default proposal reused by the concrete scenarios below. -/

/-- A minimal concrete proposal record. -/
def baseTxp : Txp :=
  { status := .temporary,
    actions := [],
    walletM := 1,
    walletN := 1,
    requiredSignatures := 1,
    requiredRejections := 1,
    addressType := .P2PKH,
    inputs := [],
    inputPaths := [],
    outputs := [],
    changeAddress := none,
    feePerKb := 1000,
    excludeUnconfirmedUtxos := false,
    replaceTxByFee := false,
    instantAcceptanceEscrow := 0,
    multiTx := false,
    txid := none,
    txids := none,
    raw := none,
    broadcastedOn := none }

/- Claim C10. -/

/-- Claim C10: a proposal whose status is accepted is pending — the pending
predicate is status not in temporary/broadcasted/rejected — and toObject
reports an accepted, not-yet-broadcast proposal with isPending = true. -/
theorem accepted_isPending (txp : Txp) (h : txp.status = .accepted) :
    isPending txp = true ∧ (toObject txp).isPending = true := by
  have hs : isPending txp = true := by
    unfold isPending
    rw [h]
    decide
  exact ⟨hs, hs⟩

/-- Witness for C10 at a concrete accepted proposal. -/
theorem accepted_isPending_witness :
    isPending { baseTxp with status := .accepted } = true ∧
    (toObject { baseTxp with status := .accepted }).isPending = true :=
  accepted_isPending { baseTxp with status := .accepted } rfl

/- Claim C7. -/

/-- Claim C7 (amended): setBroadcasted is gated only on the presence of a
truthy transaction id — it fails (throwing, leaving the proposal unchanged)
exactly when the txid is missing, and otherwise sets status broadcasted and
records the broadcast timestamp regardless of the current status. -/
theorem setBroadcasted_txid_gate (txp : Txp) (now : ℤ) :
    (jsTruthyStr txp.txid = false → setBroadcasted txp now = none) ∧
    (jsTruthyStr txp.txid = true → setBroadcasted txp now =
      some { txp with status := .broadcasted, broadcastedOn := some now }) := by
  constructor <;> intro h <;> simp [setBroadcasted, h]

/-- A proposal that is not accepted but carries a transaction id. -/
def txpC7 : Txp := { baseTxp with status := .temporary, txid := some "c0ffee" }

/-- Counterexample for C7: setBroadcasted succeeds on a proposal whose status
is temporary (not accepted) because the code only checks this.txid, refuting
the claim that it fails from every status other than accepted. -/
theorem setBroadcasted_ignores_status_counterexample :
    txpC7.status ≠ TxpStatus.accepted ∧
    setBroadcasted txpC7 1234 =
      some { txpC7 with status := .broadcasted, broadcastedOn := some 1234 } := by
  constructor
  · decide
  · rfl

/-- Witness for the amended C7 theorem at concrete proposals with and without
a transaction id. -/
theorem setBroadcasted_txid_gate_witness :
    setBroadcasted baseTxp 7 = none ∧
    setBroadcasted txpC7 7 = some { txpC7 with status := .broadcasted, broadcastedOn := some 7 } :=
  ⟨(setBroadcasted_txid_gate baseTxp 7).1 rfl, (setBroadcasted_txid_gate txpC7 7).2 rfl⟩

/- Claim C2. -/

/-- The signature index never advances past the number of signatures. -/
theorem addSigsIndex_le (valid : ℕ → String → Bool) (l : List String) (i : ℕ) :
    addSigsIndex valid l i ≤ i + l.length := by
  induction l generalizing i with
  | nil => simp [addSigsIndex]
  | cons s rest ih =>
      simp only [addSigsIndex, List.length_cons]
      split
      · have := ih (i + 1)
        omega
      · have := ih i
        omega

/-- The signature index reaches the signature count exactly when every
signature validates at its own position. -/
theorem addSigsIndex_eq_iff (valid : ℕ → String → Bool) (l : List String) (i : ℕ) :
    addSigsIndex valid l i = i + l.length ↔
      ∀ k, ∀ hk : k < l.length, valid (i + k) (l.get ⟨k, hk⟩) = true := by
  induction l generalizing i with
  | nil => simp [addSigsIndex]
  | cons s rest ih =>
      simp only [addSigsIndex, List.length_cons]
      split
      · rename_i hs
        rw [show i + (rest.length + 1) = (i + 1) + rest.length by omega, ih (i + 1)]
        constructor
        · intro hall k hk
          cases k with
          | zero => simpa using hs
          | succ k =>
              have hk2 : k < rest.length := by omega
              have h2 := hall k hk2
              simp only [List.get_cons_succ]
              rw [show i + (k + 1) = i + 1 + k by omega]
              exact h2
        · intro hall k hk
          have h2 := hall (k + 1) (by omega)
          simp only [List.get_cons_succ] at h2
          rw [show i + 1 + k = i + (k + 1) by omega]
          exact h2
      · rename_i hs
        have hle := addSigsIndex_le valid rest i
        constructor
        · intro heq
          omega
        · intro hall
          have h0 := hall 0 (by omega)
          simp at h0
          simp [h0] at hs

/-- Claim C2: TxProposal.sign is all-or-nothing — when the signature list does
not have exactly one entry per input, or some signature fails to validate
against the public key at the corresponding input's derivation path, no vote
action is appended and the proposal (status, actions, raw, txid included) is
returned unchanged. -/
theorem sign_rejects_bad_signatures (valid : ℕ → String → Bool)
    (buildTx : Txp → Option (String × String)) (txp : Txp) (copayerId : String)
    (signatures : List String) (xpub : String)
    (h : signatures.length ≠ txp.inputs.length ∨
      ∃ k, ∃ hk : k < signatures.length, valid k (signatures.get ⟨k, hk⟩) = false) :
    sign valid buildTx txp copayerId signatures xpub = (false, txp) := by
  have hfail : addSignaturesToBitcoreTx valid txp.inputs.length signatures = false := by
    unfold addSignaturesToBitcoreTx
    by_cases hlen : signatures.length = txp.inputs.length
    · rcases h with h | ⟨k, hk, hbad⟩
      · exact absurd hlen h
      · rw [if_neg (by omega)]
        rw [decide_eq_false_iff_not]
        intro heq
        have heq2 : addSigsIndex valid signatures 0 = 0 + signatures.length := by omega
        have h2 := (addSigsIndex_eq_iff valid signatures 0).mp heq2 k hk
        simp only [Nat.zero_add] at h2
        rw [hbad] at h2
        exact Bool.false_ne_true h2
    · rw [if_pos (by omega)]
  unfold sign
  match hb : buildTx txp with
  | none => rfl
  | some (raw, txid) =>
      simp only [hfail]
      rfl

/- Concrete UTXOs used by the concrete scenarios. -/

/-- A concrete UTXO. -/
def utxoA : Utxo := ⟨"ta", 0, "addrA", "m/0/0", 5000, 6, false⟩

/-- A concrete UTXO. -/
def utxoB : Utxo := ⟨"tb", 1, "addrB", "m/0/1", 3000, 6, false⟩

/-- A concrete UTXO. -/
def utxoC : Utxo := ⟨"tc", 0, "addrC", "m/0/2", 1000, 6, false⟩

/-- A pending proposal with three inputs. -/
def txpC2 : Txp := { baseTxp with status := .pending, inputs := [utxoA, utxoB, utxoC] }

/-- Witness for C2, the spec's Scenario C: a proposal with 3 inputs receiving
an accept vote with only 2 signatures is rejected with no recorded action and
unchanged state. -/
theorem sign_rejects_bad_signatures_witness :
    sign (fun _ _ => true) (fun _ => some ("rawtx", "txid1")) txpC2 "copayer1" ["s1", "s2"] "xpub1"
      = (false, txpC2) :=
  sign_rejects_bad_signatures _ _ _ _ _ _ (Or.inl (by decide))

/- Claim C3. -/

/-- A pending proposal satisfying isRejected becomes rejected on the next
status update (rejection takes priority over acceptance). -/
theorem updateStatus_rejected (t : Txp) (hp : t.status = .pending) (hr : isRejected t = true) :
    (updateStatus t).status = .rejected := by
  unfold updateStatus
  simp [hp, hr]

/-- Claim C3: a created proposal has requiredRejections = min(m, n − m + 1);
a pending proposal whose reject count reaches requiredRejections through a
reject vote becomes rejected; and a rejected proposal never changes status
again — neither under any later appended votes nor under a later accept vote
through sign — so it can never become accepted. -/
theorem quorum_reject_safety :
    (∀ opts : CreateOpts, (TxProposalCreate opts).requiredRejections =
      min opts.walletM (opts.walletN - opts.walletM + 1)) ∧
    (∀ (txp : Txp) (c : String) (r : Option String), txp.status = .pending →
      txp.requiredRejections ≤ (countActionsOfType .reject txp.actions : ℤ) + 1 →
      (reject txp c r).status = .rejected) ∧
    (∀ (txp : Txp) (votes : List VoteInput), txp.status = .rejected →
      (applyVotes txp votes).status = .rejected) ∧
    (∀ (valid : ℕ → String → Bool) (buildTx : Txp → Option (String × String))
      (txp : Txp) (c : String) (sigs : List String) (xpub : String), txp.status = .rejected →
      (sign valid buildTx txp c sigs xpub).2.status = .rejected) := by
  have hadd : ∀ (txp : Txp) (c : String) (ty : ActionType) (cm : Option String)
      (sg : Option (List String)) (xp : Option String), txp.status = .rejected →
      (addAction txp c ty cm sg xp).status = .rejected := by
    intro txp c ty cm sg xp h
    rw [addAction_preserves_nonpending]
    · exact h
    · rw [h]
      decide
  refine ⟨fun opts => rfl, ?_, ?_, ?_⟩
  · intro txp c r hpend hcount
    show (updateStatus { txp with actions := txp.actions ++ [mkAction c .reject r none none] }).status
      = .rejected
    apply updateStatus_rejected
    · exact hpend
    · unfold isRejected
      have hcnt : countActionsOfType ActionType.reject
          (txp.actions ++ [mkAction c .reject r none none]) =
          countActionsOfType ActionType.reject txp.actions + 1 := by
        rw [countActionsOfType_append]
        simp [mkAction]
      show (decide (0 < countActionsOfType ActionType.reject
          (txp.actions ++ [mkAction c .reject r none none])) &&
        decide (txp.requiredRejections ≤ (countActionsOfType ActionType.reject
          (txp.actions ++ [mkAction c .reject r none none]) : ℤ))) = true
      rw [hcnt]
      have h1 : 0 < countActionsOfType ActionType.reject txp.actions + 1 := by omega
      have h2 : txp.requiredRejections ≤
          ((countActionsOfType ActionType.reject txp.actions + 1 : ℕ) : ℤ) := by
        push_cast
        omega
      simp [h1, h2]
      exact hcount
  · intro txp votes h
    induction votes generalizing txp with
    | nil => exact h
    | cons v rest ih =>
        unfold applyVotes at *
        simp only [List.foldl_cons]
        exact ih _ (hadd _ _ _ _ _ _ h)
  · intro valid buildTx txp c sigs xpub h
    unfold sign
    match hb : buildTx txp with
    | none => exact h
    | some (raw, txid) =>
        simp only
        by_cases hsig : addSignaturesToBitcoreTx valid txp.inputs.length sigs = true
        · rw [if_pos hsig]
          have h2 := hadd txp c .accept none (some sigs) (some xpub) h
          rw [if_neg (by rw [h2]; decide)]
          exact h2
        · rw [if_neg hsig]
          exact h

/-- A reject action by a concrete copayer. -/
def rejAction1 : TxpAction := ⟨"copayer1", .reject, none, none, some "because"⟩

/-- A pending 2-of-3 proposal carrying one reject vote. -/
def txpPend23 : Txp :=
  { baseTxp with
    status := .pending,
    walletM := 2,
    walletN := 3,
    requiredSignatures := 2,
    requiredRejections := 2,
    actions := [rejAction1] }

/-- Concrete creation options for a 2-of-3 wallet. -/
def createOpts23 : CreateOpts :=
  { walletM := 2,
    walletN := 3,
    outputs := [],
    feePerKb := 1000,
    excludeUnconfirmedUtxos := false,
    addressType := none,
    inputs := [],
    multiTx := false,
    instantAcceptanceEscrow := 0,
    replaceTxByFee := false }

/-- Witness for C3, the spec's Scenario B: in a 2-of-3 wallet
(requiredRejections = min(2, 3−2+1) = 2) a second reject vote turns a pending
proposal rejected, and a later accept vote (both as a raw vote and through
sign) leaves it rejected. -/
theorem quorum_reject_safety_witness :
    (TxProposalCreate createOpts23).requiredRejections = min 2 (3 - 2 + 1) ∧
    (reject txpPend23 "copayer2" none).status = .rejected ∧
    (applyVotes (reject txpPend23 "copayer2" none)
      [⟨"copayer3", .accept, none, some ["s1"], some "xpub3"⟩]).status = .rejected ∧
    (sign (fun _ _ => true) (fun _ => some ("raw", "id")) (reject txpPend23 "copayer2" none)
      "copayer3" [] "xpub3").2.status = .rejected := by
  have hrej : (reject txpPend23 "copayer2" none).status = .rejected :=
    quorum_reject_safety.2.1 txpPend23 "copayer2" none rfl (by decide)
  exact ⟨quorum_reject_safety.1 _, hrej,
    quorum_reject_safety.2.2.1 _ _ hrej,
    quorum_reject_safety.2.2.2 _ _ _ _ _ _ hrej⟩

/- Claim C8. -/

/-- A server-reported copayer entry. -/
def copayerDup1 : CopayerEntry := ⟨some "name1", none, some "xpubA", some "rpk1", some "sig1"⟩

/-- A second copayer entry carrying the same extended public key. -/
def copayerDup2 : CopayerEntry := ⟨some "name2", none, some "xpubA", some "rpk2", some "sig2"⟩

/-- Claim C8 evaluated at the failing input: two distinct copayer entries with
the same extended public key, every field present and every signature valid,
are ACCEPTED by checkCopayers (result true) although the claim requires the
duplicate to be rejected — the duplicate check reads uniq[copayers.xPubKey]++
off the copayers array (undefined key) and its undefined/NaN counter is never
truthy, so the 'Repeated public keys' branch is unreachable. -/
theorem checkCopayers_accepts_duplicate_xpubs :
    checkCopayers (fun _ _ _ => true) "walletPubKey" 2 "xpubA" [copayerDup1, copayerDup2]
      = some true ∧
    copayerDup1.xPubKey = copayerDup2.xPubKey ∧ copayerDup1 ≠ copayerDup2 := by
  refine ⟨?_, rfl, by decide⟩
  rfl

/- Claim C9. -/

/-- The lodash difference of a list with itself is empty. -/
theorem jsDifference_self (l : List String) : jsDifference l l = [] := by
  unfold jsDifference
  rw [List.filter_eq_nil_iff]
  intro a ha
  simp [ha]

/-- Claim C9: address derivation is deterministic end to end — when the server
reports exactly the record produced by Utils.deriveAddress for the wallet's own
parameters (script type, public-key ring, path, m, adjusted network, chain,
escrow inputs and external source keys), Verifier.checkAddress recomputes the
same address and public keys and returns true. -/
theorem checkAddress_roundtrip (prims : DerivePrims) (useRegtest : Bool) (c : Credentials)
    (p : String) (esc : Option (List EscrowInput)) (_hc : c.isComplete = true) :
    checkAddress prims useRegtest c
      { type := none,
        address := (deriveAddress prims c.addressType c.publicKeyRing p c.m
          (regtestAdjustedNetwork useRegtest c.network) c.chain esc
          c.hardwareSourcePublicKey c.clientDerivedPublicKey).address,
        path := p,
        publicKeys := (deriveAddress prims c.addressType c.publicKeyRing p c.m
          (regtestAdjustedNetwork useRegtest c.network) c.chain esc
          c.hardwareSourcePublicKey c.clientDerivedPublicKey).publicKeys } esc = true := by
  unfold checkAddress deriveAddress
  simp [jsDifference_self]

/-- Concrete, arbitrary derivation primitives for the round-trip witness. -/
def prims0 : DerivePrims :=
  { deriveChildPub := fun x p => x ++ "/" ++ p,
    createMultisig := fun pks m n _ _ => String.intercalate "," pks ++ n ++ toString m,
    createEscrow := fun _ pk n => pk ++ n,
    fromPublicKey := fun pk n _ => pk ++ n,
    deriverGetAddress := fun _ _ pk _ => pk,
    deriverDeriveAddress := fun _ _ x i _ => x ++ i,
    parsePath := fun p => (p, false) }

/-- Concrete complete credentials for a 2-of-3 multisig wallet. -/
def cred0 : Credentials :=
  { network := "livenet",
    addressType := .P2SH,
    publicKeyRing := [⟨"xp1", "rp1"⟩, ⟨"xp2", "rp2"⟩, ⟨"xp3", "rp3"⟩],
    m := 2,
    n := 3,
    chain := "btc",
    xPubKey := "xp1",
    hardwareSourcePublicKey := none,
    clientDerivedPublicKey := none,
    isComplete := true }

/-- Witness for C9 at concrete credentials and primitives. -/
theorem checkAddress_roundtrip_witness :
    checkAddress prims0 false cred0
      { type := none,
        address := (deriveAddress prims0 cred0.addressType cred0.publicKeyRing "m/0/5" cred0.m
          (regtestAdjustedNetwork false cred0.network) cred0.chain none none none).address,
        path := "m/0/5",
        publicKeys := (deriveAddress prims0 cred0.addressType cred0.publicKeyRing "m/0/5" cred0.m
          (regtestAdjustedNetwork false cred0.network) cred0.chain none none none).publicKeys }
      none = true :=
  checkAddress_roundtrip prims0 false cred0 "m/0/5" none rfl

/- Claim C5. -/

/-- Claim C5 (amended): for a proposal without pre-filled inputs the estimated
fee equals the estimated size times feePerKb over 1000, rounded half away from
zero (toFixed(0)) — not the ceiling — and floored at the library DUST_AMOUNT. -/
theorem getEstimatedFee_rounded_formula (addrTypeOf : String → String) (txp : Txp)
    (opts : SizeOpts) (h : txp.inputs = []) :
    getEstimatedFee addrTypeOf txp opts =
      max (jsRound (txp.feePerKb * (getEstimatedSize addrTypeOf txp opts : ℚ) / 1000)) DUST_AMOUNT := by
  unfold getEstimatedFee
  rw [if_neg (by simp [h])]
  exact jsRound_max_intCast _ _

/-- The addrTypeOf oracle of a wallet whose payment addresses are all
pay-to-key-hash. -/
def addrPKH : String → String := fun _ => "pubkeyhash"

/-- A proposal with one P2PKH output, no inputs, no change address, and
feePerKb = 20005 (estimated size is then 44 bytes and the raw fee 880.22). -/
def txpC5 : Txp := { baseTxp with outputs := [⟨some "payaddr", 1, none⟩], feePerKb := 20005 }

/-- The estimated size of txpC5 is 44 bytes (10 overhead + one 34-byte
pay-to-key-hash output, no inputs, no change). -/
theorem getEstimatedSize_txpC5 : getEstimatedSize addrPKH txpC5 ⟨false, false⟩ = 44 := by
  norm_num [getEstimatedSize, getEstimatedSizeForSingleInput, getEstimatedSizeForSingleOutput,
    getEstimatedSizeForAddressType, txpC5, baseTxp, addrPKH]

/-- Counterexample for C5: at feePerKb = 20005 and size 44 the code computes
parseInt((880.22).toFixed(0)) = 880 while the claim's formula
max(⌈size × feePerKb / 1000⌉, DUST_AMOUNT) gives 881. -/
theorem getEstimatedFee_not_ceiling_counterexample :
    getEstimatedFee addrPKH txpC5 ⟨false, false⟩ = 880 ∧
    max (⌈txpC5.feePerKb * (getEstimatedSize addrPKH txpC5 ⟨false, false⟩ : ℚ) / 1000⌉)
      DUST_AMOUNT = 881 := by
  constructor
  · have h0 : getEstimatedFee addrPKH txpC5 ⟨false, false⟩ =
        max (jsRound (txpC5.feePerKb * (getEstimatedSize addrPKH txpC5 ⟨false, false⟩ : ℚ) / 1000))
          DUST_AMOUNT := by
      unfold getEstimatedFee
      rw [if_neg (by simp [txpC5, baseTxp])]
      exact jsRound_max_intCast _ _
    rw [h0, getEstimatedSize_txpC5]
    have h1 : jsRound ((txpC5.feePerKb * ((44 : ℤ) : ℚ) / 1000)) = 880 := by
      norm_num [jsRound, txpC5, baseTxp]
    rw [h1]
    norm_num [DUST_AMOUNT]
  · rw [getEstimatedSize_txpC5]
    have h2 : (⌈txpC5.feePerKb * ((44 : ℤ) : ℚ) / 1000⌉ : ℤ) = 881 := by
      rw [show txpC5.feePerKb * ((44 : ℤ) : ℚ) / 1000 = 44011/50 by norm_num [txpC5, baseTxp]]
      rw [Int.ceil_eq_iff]
      · norm_num
    rw [h2]
    norm_num [DUST_AMOUNT]

/-- Witness for the amended C5 theorem at the concrete proposal. -/
theorem getEstimatedFee_rounded_formula_witness :
    getEstimatedFee addrPKH txpC5 ⟨false, false⟩ =
      max (jsRound (txpC5.feePerKb * (getEstimatedSize addrPKH txpC5 ⟨false, false⟩ : ℚ) / 1000))
        DUST_AMOUNT :=
  getEstimatedFee_rounded_formula addrPKH txpC5 ⟨false, false⟩ rfl

/- Claim C6. -/

/-- Characterization of the sanitizeUtxos filter body. -/
theorem sanitizeKeep_eq_true_iff (txp : Txp) (opts : SelOpts) (u : Utxo) :
    sanitizeKeep txp opts u = true ↔
      u.locked = false ∧
      (txp.excludeUnconfirmedUtxos = true → txp.replaceTxByFee = false → u.confirmations ≠ 0) ∧
      opts.utxosToExclude.contains (utxoExcludeKey u) = false := by
  unfold sanitizeKeep
  split_ifs with h1 h2 h3 <;> simp_all

/-- Claim C6 (amended): in replace-by-fee mode only the unconfirmed-utxo
exclusion is bypassed — a utxo passes sanitizeUtxos iff it is not locked, not
explicitly excluded, and either confirmed, or unconfirmed funds are allowed, or
the proposal replaces a transaction by fee; locked utxos are always dropped.
Inputs of the replaced transaction additionally bypass the economical filter
inside select (and are sorted first), but the final selection is not guaranteed
to contain one. -/
theorem rbf_filter_behavior :
    (∀ (txp : Txp) (opts : SelOpts) (utxos : List Utxo) (u : Utxo),
      u ∈ sanitizeUtxos txp opts utxos ↔
        u ∈ utxos ∧ u.locked = false ∧
        (txp.excludeUnconfirmedUtxos = true → txp.replaceTxByFee = false → u.confirmations ≠ 0) ∧
        opts.utxosToExclude.contains (utxoExcludeKey u) = false) ∧
    (∀ (P : SelectParams) (requiredTxids : List String) (u : Utxo),
      u.txid ∈ requiredTxids → econKeep P requiredTxids u = true) := by
  constructor
  · intro txp opts utxos u
    rw [sanitizeUtxos, List.mem_filter, sanitizeKeep_eq_true_iff]
  · intro P requiredTxids u h
    unfold econKeep
    simp
    exact Or.inl h

/-- Witness for the amended C6 theorem: an unconfirmed, unlocked utxo passes
sanitizeUtxos under replace-by-fee even though the proposal excludes
unconfirmed utxos, and a required (replaced-transaction) txid passes the
economical filter. -/
theorem rbf_filter_behavior_witness :
    (⟨"u0", 0, "au", "m/0/7", 700, 0, false⟩ : Utxo) ∈
      sanitizeUtxos { baseTxp with excludeUnconfirmedUtxos := true, replaceTxByFee := true }
        ⟨false, 0, [], [], false⟩ [⟨"u0", 0, "au", "m/0/7", 700, 0, false⟩] ∧
    econKeep ⟨0, 0, 0, 0, 0, 1, 100⟩ ["u0"] ⟨"u0", 0, "au", "m/0/7", 700, 0, false⟩ = true := by
  constructor
  · exact (rbf_filter_behavior.1 _ _ _ _).mpr
      ⟨by simp, rfl, by simp, rfl⟩
  · exact rbf_filter_behavior.2 _ _ _ (by simp)

/-- An input of the transaction being replaced (big relative to the target). -/
def utxoRbf1 : Utxo := ⟨"r1", 0, "a1", "m/0/1", 10000, 6, false⟩

/-- A small independent utxo. -/
def utxoRbf2 : Utxo := ⟨"t2", 0, "a2", "m/0/2", 2000, 6, false⟩

/-- A locked utxo. -/
def lockedUtxo : Utxo := ⟨"lx", 0, "a9", "m/0/9", 5000, 0, true⟩

/-- A replace-by-fee proposal paying 1000 satoshis whose replaced transaction
had the single input utxoRbf1. -/
def txpC6 : Txp :=
  { baseTxp with
    outputs := [⟨some "payaddr", 1000, none⟩],
    changeAddress := some "chgaddr",
    feePerKb := 1000,
    replaceTxByFee := true,
    inputs := [utxoRbf1] }

/-- Options carrying the replaced transaction's inputs. -/
def optsC6 : SelOpts :=
  { payProUrl := false,
    instantAcceptanceEscrow := 0,
    utxosToExclude := [],
    inputs := [utxoRbf1],
    zceCompatible := false }

/-- The selection parameters arising in the replace-by-fee scenario. -/
def paramsC6 : SelectParams :=
  { txpAmount := 1000,
    escrowAmount := 0,
    baseTxpSize := 226,
    baseTxpFee := 226,
    sizePerInput := 148,
    feePerInput := 148,
    maxTxSizeInKb := 100 }

/-- The selection parameters of the replace-by-fee scenario. -/
theorem mkSelectParams_txpC6_eval : mkSelectParams addrPKH txpC6 optsC6 = paramsC6 := by
  norm_num [mkSelectParams, getEstimatedSize, getEstimatedSizeForSingleInput,
    getEstimatedSizeForSingleOutput, getEstimatedSizeForAddressType, getTotalAmount,
    MAX_TX_SIZE_IN_KB_BTC, txpC6, baseTxp, addrPKH, optsC6, utxoRbf1, paramsC6]

/-- select in the replace-by-fee scenario picks the small independent utxo and
never touches the replaced transaction's input. -/
theorem select_txpC6_eval :
    select paramsC6 [utxoRbf1, utxoRbf2] [utxoRbf1] true = .ok ([utxoRbf2], 374) := by
  norm_num [select, selectEcon, requiredTxidsOf, paramsC6, sumSat, econKeep, bigInputThreshold,
    UTXO_SELECTION_MAX_SINGLE_UTXO_FACTOR, UTXO_SELECTION_MIN_TX_AMOUNT_VS_UTXO_FACTOR,
    UTXO_SELECTION_MAX_FEE_VS_TX_AMOUNT_FACTOR, UTXO_SELECTION_MAX_FEE_VS_SINGLE_UTXO_FEE_FACTOR,
    insSort, insOrdered, ltBig, ltSmall, ltSortKeys, accumulate, selStep, initLoopSt,
    selectPostLoop, selectFinish, jsRound, dustThreshold, MIN_OUTPUT_AMOUNT, DUST_AMOUNT,
    utxoRbf1, utxoRbf2, List.filter]

/-- Counterexample for C6: in replace-by-fee mode the selection succeeds with
an input set containing no utxo of the replaced transaction (the required txid
r1 is absent from the result), and a locked utxo is still excluded by
sanitizeUtxos despite replace-by-fee — refuting both the retention guarantee
and the locked-filter bypass. -/
theorem rbf_counterexample :
    selectTxInputs addrPKH txpC6 optsC6 [utxoRbf1, utxoRbf2] = .ok ([utxoRbf2], 374) ∧
    utxoRbf1.txid ∉ ([utxoRbf2].map Utxo.txid) ∧
    sanitizeUtxos txpC6 optsC6 [lockedUtxo] = [] := by
  refine ⟨?_, by decide, by decide⟩
  have ht1 : utxoRbf1.txid = "r1" := rfl
  have ht2 : utxoRbf2.txid = "t2" := rfl
  have hc1 : utxoRbf1.confirmations = 6 := rfl
  have hc2 : utxoRbf2.confirmations = 6 := rfl
  have hl1 : utxoRbf1.locked = false := rfl
  have hl2 : utxoRbf2.locked = false := rfl
  have hx1 : txpC6.excludeUnconfirmedUtxos = false := rfl
  have hx2 : txpC6.replaceTxByFee = true := rfl
  have hx5 : optsC6.instantAcceptanceEscrow = 0 := rfl
  have hx6 : txpC6.inputs = [utxoRbf1] := rfl
  have hx4 : optsC6.inputs = [utxoRbf1] := rfl
  have hj1 : jsIndexOf ["r1"] "r1" = 0 := by decide
  have hj2 : jsIndexOf ["r1"] "t2" = -1 := by decide
  have hk1 : sanitizeKeep txpC6 optsC6 utxoRbf1 = true := by
    simp [sanitizeKeep, hl1, hx1, optsC6]
  have hk2 : sanitizeKeep txpC6 optsC6 utxoRbf2 = true := by
    simp [sanitizeKeep, hl2, hx1, optsC6]
  have hsan : sanitizeUtxos txpC6 optsC6 [utxoRbf1, utxoRbf2] = [utxoRbf1, utxoRbf2] := by
    simp [sanitizeUtxos, List.filter_cons, hk1, hk2]
  have hbal : totalizeUtxos [utxoRbf1, utxoRbf2] =
      { totalAmount := 12000, lockedAmount := 0, totalConfirmedAmount := 12000,
        lockedConfirmedAmount := 0, availableAmount := 12000,
        availableConfirmedAmount := 12000 } := by
    norm_num [totalizeUtxos, sumSat, List.filter, utxoRbf1, utxoRbf2]
  have hamt : getTotalAmount txpC6 = 1000 := by
    norm_num [getTotalAmount, txpC6, baseTxp]
  have hgc : groupCandidates txpC6 optsC6 [utxoRbf1, utxoRbf2] 6 = [utxoRbf1, utxoRbf2] := by
    simp only [groupCandidates, hx2, hx4, hx5, List.filter_cons, List.filter_nil, hc1, hc2,
      List.map_cons, List.map_nil, ht1, ht2, insSort, insOrdered, ltRbf, hj1, hj2]
    norm_num
  have hloop : selectTxInputsLoop paramsC6 txpC6 optsC6 [utxoRbf1, utxoRbf2] [6, 1, 0] none none
      = .ok ([utxoRbf2], 374) := by
    have hnone : (none : Option ℕ) ≠ some ([utxoRbf1, utxoRbf2].length) := by decide
    simp only [selectTxInputsLoop, hgc, if_neg hnone, hx6, hx2, select_txpC6_eval]
  unfold selectTxInputs
  rw [mkSelectParams_txpC6_eval]
  simp only [hbal, hamt, hx1, hsan, Bool.false_and, Bool.not_false, if_true]
  norm_num [hloop]

/- Claim C1: invariants of the accumulation loop. -/

/-- Invariant of the accumulation loop: the running total is the value of the
selected inputs, the net total equals total minus base fee minus the selected
inputs' marginal fees, and whenever the net total has reached the running
target a fee is recorded that the selected total covers on top of the target
amount. -/
def SelInv (P : SelectParams) (st : LoopSt) : Prop :=
  st.total = sumSat st.selected ∧
  st.netTotal = (st.total : ℚ) - P.baseTxpFee - (st.selected.length : ℚ) * P.feePerInput ∧
  ((st.fullTxpAmount : ℚ) ≤ st.netTotal → st.selected ≠ [] →
    ∃ f, st.fee = some f ∧ P.txpAmount + f ≤ st.total)

/-- The initial loop state satisfies the invariant. -/
theorem initLoopSt_inv (P : SelectParams) : SelInv P (initLoopSt P) := by
  refine ⟨rfl, by simp [initLoopSt, sumSat], ?_⟩
  intro _ hne
  exact absurd rfl hne

/-- One loop iteration preserves the invariant. -/
theorem selStep_inv (P : SelectParams) (hB : 0 ≤ P.baseTxpFee) (hF : 0 ≤ P.feePerInput)
    (big : Bool) (st : LoopSt) (u : Utxo) (h : SelInv P st) : SelInv P (selStep P big st u) := by
  obtain ⟨h1, h2, _⟩ := h
  have hlen : (st.selected ++ [u]).length = st.selected.length + 1 := by
    simp
  have hnet : st.netTotal + ((u.satoshis : ℚ) - P.feePerInput) =
      ((st.total + u.satoshis : ℤ) : ℚ) - P.baseTxpFee -
        (((st.selected ++ [u]).length : ℕ) : ℚ) * P.feePerInput := by
    rw [h2, hlen]
    push_cast
    ring
  have htot : st.total + u.satoshis = sumSat (st.selected ++ [u]) := by
    rw [sumSat_append_single, h1]
  have hmul : (0 : ℚ) ≤ (((st.selected ++ [u]).length : ℕ) : ℚ) * P.feePerInput :=
    mul_nonneg (by positivity) hF
  have hfee0 : (0 : ℚ) ≤ P.baseTxpFee + (((st.selected ++ [u]).length : ℕ) : ℚ) * P.feePerInput :=
    add_nonneg hB hmul
  -- the fee recorded by this iteration
  set f0 : ℤ := jsRound (P.baseTxpFee + (((st.selected ++ [u]).length : ℕ) : ℚ) * P.feePerInput)
    with hf0
  have hf0nn : 0 ≤ f0 := jsRound_nonneg hfee0
  -- the inequality obtained at any exit point whose target check holds
  have keyE : (((P.txpAmount + f0 : ℤ) : ℚ) ≤ st.netTotal + ((u.satoshis : ℚ) - P.feePerInput)) →
      P.txpAmount + f0 ≤ st.total + u.satoshis := by
    intro hge
    rw [hnet] at hge
    have h5 : ((P.txpAmount + f0 : ℤ) : ℚ) ≤ ((st.total + u.satoshis : ℤ) : ℚ) := by
      push_cast at hge ⊢
      linarith
    exact_mod_cast h5
  have keyN : (((P.txpAmount : ℤ) : ℚ) ≤ st.netTotal + ((u.satoshis : ℚ) - P.feePerInput)) →
      P.txpAmount + f0 ≤ st.total + u.satoshis := by
    intro hge
    rw [hnet] at hge
    have hle : P.baseTxpFee + (((st.selected ++ [u]).length : ℕ) : ℚ) * P.feePerInput ≤
        ((st.total + u.satoshis - P.txpAmount : ℤ) : ℚ) := by
      push_cast at hge ⊢
      linarith
    have h6 := jsRound_le_of_le hle
    rw [← hf0] at h6
    omega
  unfold selStep
  dsimp only
  rw [← hf0]
  by_cases he : P.escrowAmount ≠ 0
  · simp only [if_pos he]
    split_ifs with hsize hr1 hr2 htar hfold
    · exact ⟨htot, hnet, fun hge _ => ⟨f0, rfl, keyE hge⟩⟩
    · exact ⟨htot, hnet, fun hge _ => ⟨f0, rfl, keyE hge⟩⟩
    · exact ⟨htot, hnet, fun hge _ => ⟨f0, rfl, keyE hge⟩⟩
    · refine ⟨htot, hnet, fun _ _ => ⟨_, rfl, ?_⟩⟩
      show P.txpAmount + (f0 + (st.total + u.satoshis - (P.txpAmount + f0) - f0)) ≤
        st.total + u.satoshis
      omega
    · exact ⟨htot, hnet, fun _ _ => ⟨f0, rfl, keyE htar⟩⟩
    · exact ⟨htot, hnet, fun hge _ => absurd hge htar⟩
  · simp only [if_neg he]
    split_ifs with hsize hr1 hr2 htar hfold
    · exact ⟨htot, hnet, fun hge _ => ⟨f0, rfl, keyN hge⟩⟩
    · exact ⟨htot, hnet, fun hge _ => ⟨f0, rfl, keyN hge⟩⟩
    · exact ⟨htot, hnet, fun hge _ => ⟨f0, rfl, keyN hge⟩⟩
    · refine ⟨htot, hnet, fun _ _ => ⟨_, rfl, ?_⟩⟩
      show P.txpAmount + (f0 + (st.total + u.satoshis - P.txpAmount - f0)) ≤
        st.total + u.satoshis
      omega
    · exact ⟨htot, hnet, fun _ _ => ⟨f0, rfl, keyN htar⟩⟩
    · exact ⟨htot, hnet, fun hge _ => absurd hge htar⟩

/-- The accumulation loop preserves the invariant. -/
theorem accumulate_inv (P : SelectParams) (hB : 0 ≤ P.baseTxpFee) (hF : 0 ≤ P.feePerInput)
    (big : Bool) (l : List Utxo) (st : LoopSt) (h : SelInv P st) :
    SelInv P (accumulate P big l st) := by
  induction l generalizing st with
  | nil => exact h
  | cons u rest ih =>
      unfold accumulate
      split
      · exact h
      · exact ih _ (selStep_inv P hB hF big st u h)

/-- Soundness of the post-loop code: any selection it leaves non-empty with a
recorded fee covers the target plus that fee, given that every big input
exceeds the big-input threshold. -/
theorem selectPostLoop_sound (P : SelectParams) (hT : 0 ≤ P.txpAmount) (_hB : 0 ≤ P.baseTxpFee)
    (_hF : 0 ≤ P.feePerInput) (bigInputs : List Utxo)
    (hbig : ∀ u ∈ bigInputs, bigInputThreshold P < (u.satoshis : ℚ))
    (st : LoopSt) (hst : SelInv P st) (f : ℤ)
    (hfee : (selectPostLoop P bigInputs st).fee = some f)
    (hne : (selectPostLoop P bigInputs st).selected ≠ []) :
    P.txpAmount + f ≤ sumSat (selectPostLoop P bigInputs st).selected := by
  unfold selectPostLoop at hfee hne ⊢
  split_ifs at hfee hne ⊢ with hlt
  · cases bigInputs with
    | nil => exact absurd rfl hne
    | cons input rest =>
        simp only at hfee hne ⊢
        rw [sumSat_singleton]
        have hu := hbig input (List.mem_cons_self input rest)
        unfold bigInputThreshold UTXO_SELECTION_MAX_SINGLE_UTXO_FACTOR at hu
        have hTq : (0 : ℚ) ≤ (P.txpAmount : ℚ) := by exact_mod_cast hT
        have hle : P.baseTxpFee + P.feePerInput ≤ ((input.satoshis - P.txpAmount : ℤ) : ℚ) := by
          push_cast
          linarith
        have hround := jsRound_le_of_le hle
        have hf : jsRound (P.baseTxpFee + P.feePerInput) = f := by
          injection hfee
        omega
  · obtain ⟨h1, h2, h3⟩ := hst
    obtain ⟨f2, hf2, hle2⟩ := h3 (not_lt.mp hlt) hne
    rw [hfee] at hf2
    have hf2eq : f2 = f := by
      injection hf2.symm
    rw [h1] at hle2
    omega

/-- selectFinish succeeds exactly with the recorded selection and fee. -/
theorem selectFinish_ok (st : LoopSt) (sel : List Utxo) (fee : ℤ)
    (h : selectFinish st = .ok (sel, fee)) :
    st.selected = sel ∧ st.fee = some fee ∧ sel ≠ [] := by
  unfold selectFinish at h
  cases hsel : st.selected with
  | nil =>
      rw [hsel] at h
      simp at h
  | cons v vs =>
      cases hfee : st.fee with
      | none =>
          rw [hsel, hfee] at h
          simp at h
      | some f2 =>
          rw [hsel, hfee] at h
          simp only [Except.ok.injEq, Prod.mk.injEq] at h
          exact ⟨h.1, by rw [h.2], by rw [← h.1]; simp⟩

/-- Claim C1 at the level of the select closure: a successful selection covers
the target amount plus the returned fee. -/
theorem selectEcon_ok_covers (P : SelectParams) (hT : 0 ≤ P.txpAmount) (hB : 0 ≤ P.baseTxpFee)
    (hF : 0 ≤ P.feePerInput) (requiredTxids : List String) (utxos : List Utxo)
    (sel : List Utxo) (fee : ℤ)
    (h : selectEcon P requiredTxids utxos = .ok (sel, fee)) : P.txpAmount + fee ≤ sumSat sel := by
  unfold selectEcon at h
  dsimp only at h
  split_ifs at h
  set econUtxos := utxos.filter (econKeep P requiredTxids) with hecon
  set bigInputs := insSort (ltBig requiredTxids)
    (econUtxos.filter (fun u => decide ((u.satoshis : ℚ) > bigInputThreshold P))) with hbi
  set smallInputs := insSort (ltSmall requiredTxids)
    (econUtxos.filter (fun u => !(decide ((u.satoshis : ℚ) > bigInputThreshold P)))) with hsi
  have hbig : ∀ u ∈ bigInputs, bigInputThreshold P < (u.satoshis : ℚ) := by
    intro u hu
    rw [hbi, mem_insSort] at hu
    have := List.of_mem_filter hu
    simpa using this
  have hinv := accumulate_inv P hB hF (!bigInputs.isEmpty) smallInputs (initLoopSt P)
    (initLoopSt_inv P)
  obtain ⟨hsel, hfee, hne⟩ := selectFinish_ok _ _ _ h
  have hcov := selectPostLoop_sound P hT hB hF bigInputs hbig _ hinv fee hfee
    (by rw [hsel]; exact hne)
  rwa [hsel] at hcov

/-- Claim C1 at the level of the select closure: a successful selection covers
the target amount plus the returned fee. -/
theorem select_ok_covers (P : SelectParams) (hT : 0 ≤ P.txpAmount) (hB : 0 ≤ P.baseTxpFee)
    (hF : 0 ≤ P.feePerInput) (utxos req : List Utxo) (rbf : Bool) (sel : List Utxo) (fee : ℤ)
    (h : select P utxos req rbf = .ok (sel, fee)) : P.txpAmount + fee ≤ sumSat sel := by
  unfold select at h
  dsimp only at h
  split_ifs at h
  exact selectEcon_ok_covers P hT hB hF _ _ _ _ h

/- Claim C1: the top level. -/

/-- Any success of the confirmation-group ladder comes from a select call over
some candidate set. -/
theorem selectTxInputsLoop_ok (P : SelectParams) (txp : Txp) (opts : SelOpts) (utxos : List Utxo)
    (groups : List ℕ) (lastLen : Option ℕ) (selErr : Option SelErr) (sel : List Utxo) (fee : ℤ)
    (h : selectTxInputsLoop P txp opts utxos groups lastLen selErr = .ok (sel, fee)) :
    ∃ cand, select P cand txp.inputs txp.replaceTxByFee = .ok (sel, fee) := by
  induction groups generalizing lastLen selErr with
  | nil =>
      unfold selectTxInputsLoop at h
      simp at h
  | cons g rest ih =>
      unfold selectTxInputsLoop at h
      dsimp only at h
      split_ifs at h with hskip
      · exact ih _ _ h
      · cases hs : select P (groupCandidates txp opts utxos g) txp.inputs txp.replaceTxByFee with
        | error e =>
            rw [hs] at h
            exact ih _ _ h
        | ok r =>
            rw [hs] at h
            simp only [Except.ok.injEq] at h
            exact ⟨groupCandidates txp opts utxos g, by rw [hs, h]⟩

/-- The per-input size estimate is non-negative for a wallet with non-negative
threshold and copayer count. -/
theorem getEstimatedSizeForSingleInput_nonneg (txp : Txp) (c : Bool)
    (hm : 0 ≤ txp.requiredSignatures) (hn : 0 ≤ txp.walletN) :
    0 ≤ getEstimatedSizeForSingleInput txp c := by
  have hmq : (0 : ℚ) ≤ (txp.requiredSignatures : ℚ) := by exact_mod_cast hm
  have hnq : (0 : ℚ) ≤ (txp.walletN : ℚ) := by exact_mod_cast hn
  have hmargin : (0 : ℚ) ≤ (if c then (2 : ℚ) else 0) := by
    split <;> norm_num
  unfold getEstimatedSizeForSingleInput
  cases txp.addressType <;> dsimp only
  · linarith
  · linarith
  · linarith
  · have hinner : (0 : ℚ) ≤ 32 + 4 + 1 +
        (5 + (txp.requiredSignatures : ℚ) * 74 + (txp.walletN : ℚ) * 34) / 4 + 4 := by
      positivity
    have hceil : (0 : ℤ) ≤ ⌈(32 + 4 + 1 +
        (5 + (txp.requiredSignatures : ℚ) * 74 + (txp.walletN : ℚ) * 34) / 4 + 4 : ℚ)⌉ :=
      Int.ceil_nonneg hinner
    have hceilq : (0 : ℚ) ≤ (⌈(32 + 4 + 1 +
        (5 + (txp.requiredSignatures : ℚ) * 74 + (txp.walletN : ℚ) * 34) / 4 + 4 : ℚ)⌉ : ℚ) := by
      exact_mod_cast hceil
    linarith
  · linarith

/-- Per-output size estimates are non-negative. -/
theorem getEstimatedSizeForAddressType_nonneg (t : String) :
    0 ≤ getEstimatedSizeForAddressType t := by
  unfold getEstimatedSizeForAddressType
  split_ifs <;> norm_num

/-- Single-output size estimates are non-negative. -/
theorem getEstimatedSizeForSingleOutput_nonneg (addrTypeOf : String → String)
    (a : Option String) : 0 ≤ getEstimatedSizeForSingleOutput addrTypeOf a := by
  unfold getEstimatedSizeForSingleOutput
  exact getEstimatedSizeForAddressType_nonneg _

/-- The accumulated output size is non-negative. -/
theorem outputsFold_nonneg (addrTypeOf : String → String) (l : List (Option String)) :
    ∀ acc : ℤ, 0 ≤ acc →
      0 ≤ l.foldl (fun acc a => acc + getEstimatedSizeForSingleOutput addrTypeOf a) acc := by
  induction l with
  | nil => intro acc h; simpa using h
  | cons a rest ih =>
      intro acc h
      simp only [List.foldl_cons]
      exact ih _ (add_nonneg h (getEstimatedSizeForSingleOutput_nonneg addrTypeOf a))

/-- The total size estimate is non-negative. -/
theorem getEstimatedSize_nonneg (addrTypeOf : String → String) (txp : Txp) (opts : SizeOpts)
    (hm : 0 ≤ txp.requiredSignatures) (hn : 0 ≤ txp.walletN) :
    0 ≤ getEstimatedSize addrTypeOf txp opts := by
  have hin := getEstimatedSizeForSingleInput_nonneg txp opts.conservativeEstimation hm hn
  have hnb : (0 : ℚ) ≤ ((txp.inputs.length : ℕ) : ℚ) := by positivity
  have hprod := mul_nonneg hin hnb
  have hfold := outputsFold_nonneg addrTypeOf
    (txp.outputs.map (·.toAddress) ++ (match txp.changeAddress with
      | some a => [some a]
      | none => [])) 0 le_rfl
  have hfoldq : (0 : ℚ) ≤ (((txp.outputs.map (·.toAddress) ++ (match txp.changeAddress with
      | some a => [some a]
      | none => [])).foldl (fun acc a => acc + getEstimatedSizeForSingleOutput addrTypeOf a) 0 : ℤ) : ℚ) := by
    exact_mod_cast hfold
  have hscript := getEstimatedSizeForAddressType_nonneg "scripthash"
  have hscriptq : (0 : ℚ) ≤ ((getEstimatedSizeForAddressType "scripthash" : ℤ) : ℚ) := by
    exact_mod_cast hscript
  have hdef := getEstimatedSizeForSingleOutput_nonneg addrTypeOf none
  have hdefq : (0 : ℚ) ≤ ((getEstimatedSizeForSingleOutput addrTypeOf none : ℤ) : ℚ) := by
    exact_mod_cast hdef
  unfold getEstimatedSize
  dsimp only
  apply Int.ceil_nonneg
  split_ifs <;> push_cast <;> push_cast at hfoldq hscriptq hdefq <;> linarith

/-- Claim C1: selectTxInputs either succeeds with an input set whose total
value covers the proposal target (outputs total plus escrow) plus the fee it
computed with its own size and fee estimators — on every success path,
including the single-big-input fallback — or fails with one of the classified
selection errors. -/
theorem selectTxInputs_covers_target_plus_fee (addrTypeOf : String → String) (txp : Txp)
    (opts : SelOpts) (utxos : List Utxo)
    (hm : 0 ≤ txp.requiredSignatures) (hn : 0 ≤ txp.walletN)
    (hfpk : 0 ≤ txp.feePerKb)
    (hamt : 0 ≤ getTotalAmount txp + opts.instantAcceptanceEscrow) :
    (∀ sel fee, selectTxInputs addrTypeOf txp opts utxos = .ok (sel, fee) →
      getTotalAmount txp + opts.instantAcceptanceEscrow + fee ≤ sumSat sel) ∧
    (∀ e, selectTxInputs addrTypeOf txp opts utxos = .error e →
      e = .insufficientFunds ∨ e = .insufficientFundsForFee ∨ e = .txMaxSizeExceeded ∨
        e = .lockedFunds ∨ e = .couldNotSelect) := by
  constructor
  · intro sel fee h
    have hB : 0 ≤ (mkSelectParams addrTypeOf txp opts).baseTxpFee := by
      unfold mkSelectParams
      dsimp only
      apply div_nonneg _ (by norm_num)
      apply mul_nonneg _ hfpk
      exact_mod_cast getEstimatedSize_nonneg addrTypeOf txp _ hm hn
    have hF : 0 ≤ (mkSelectParams addrTypeOf txp opts).feePerInput := by
      unfold mkSelectParams
      dsimp only
      apply div_nonneg _ (by norm_num)
      exact mul_nonneg (getEstimatedSizeForSingleInput_nonneg txp _ hm hn) hfpk
    unfold selectTxInputs at h
    dsimp only at h
    split_ifs at h
    all_goals
      first
      | exact Except.noConfusion h
      | (obtain ⟨cand, hc⟩ := selectTxInputsLoop_ok _ _ _ _ _ _ _ _ _ h
         exact select_ok_covers _ hamt hB hF _ _ _ _ _ hc)
  · intro e _
    cases e <;> simp

/- A concrete successful selection through the single-big-input fallback,
shared by the C1 witness and the C4 counterexample. -/

/-- A single confirmed utxo of 600 satoshis. -/
def utxoC4 : Utxo := ⟨"t1", 0, "a1", "m/0/0", 600, 6, false⟩

/-- A proposal paying 100 satoshis with one P2PKH output and a change address,
at 1000 satoshis per kilobyte. -/
def txpC4 : Txp :=
  { baseTxp with
    outputs := [⟨some "payaddr", 100, none⟩],
    changeAddress := some "chgaddr",
    feePerKb := 1000 }

/-- Plain selection options. -/
def optsPlain : SelOpts :=
  { payProUrl := false,
    instantAcceptanceEscrow := 0,
    utxosToExclude := [],
    inputs := [],
    zceCompatible := false }

/-- The selection parameters of the fallback scenario. -/
def paramsC4 : SelectParams :=
  { txpAmount := 100,
    escrowAmount := 0,
    baseTxpSize := 78,
    baseTxpFee := 78,
    sizePerInput := 148,
    feePerInput := 148,
    maxTxSizeInKb := 100 }

/-- The parameters computed for the fallback scenario. -/
theorem mkSelectParams_txpC4_eval : mkSelectParams addrPKH txpC4 optsPlain = paramsC4 := by
  norm_num [mkSelectParams, getEstimatedSize, getEstimatedSizeForSingleInput,
    getEstimatedSizeForSingleOutput, getEstimatedSizeForAddressType, getTotalAmount,
    MAX_TX_SIZE_IN_KB_BTC, txpC4, baseTxp, addrPKH, optsPlain, paramsC4]

/-- select on the fallback scenario: the only utxo is big (600 > 100·2 + 226),
so the selection is the single big input with fee round(78 + 148) = 226. -/
theorem select_txpC4_eval : select paramsC4 [utxoC4] [] false = .ok ([utxoC4], 226) := by
  norm_num [select, selectEcon, requiredTxidsOf, paramsC4, sumSat, econKeep, bigInputThreshold,
    UTXO_SELECTION_MAX_SINGLE_UTXO_FACTOR, insSort, insOrdered, ltBig, ltSmall, ltSortKeys,
    accumulate, initLoopSt, selectPostLoop, selectFinish, jsRound, utxoC4, List.filter]

/-- selectTxInputs on the fallback scenario succeeds with the single big input
and fee 226. -/
theorem selectTxInputs_txpC4_eval :
    selectTxInputs addrPKH txpC4 optsPlain [utxoC4] = .ok ([utxoC4], 226) := by
  have hc1 : utxoC4.confirmations = 6 := rfl
  have hl1 : utxoC4.locked = false := rfl
  have hx1 : txpC4.excludeUnconfirmedUtxos = false := rfl
  have hx2 : txpC4.replaceTxByFee = false := rfl
  have hx5 : optsPlain.instantAcceptanceEscrow = 0 := rfl
  have hx6 : txpC4.inputs = [] := rfl
  have hk1 : sanitizeKeep txpC4 optsPlain utxoC4 = true := by
    simp [sanitizeKeep, hl1, hx1, optsPlain]
  have hsan : sanitizeUtxos txpC4 optsPlain [utxoC4] = [utxoC4] := by
    simp [sanitizeUtxos, List.filter_cons, hk1]
  have hbal : totalizeUtxos [utxoC4] =
      { totalAmount := 600, lockedAmount := 0, totalConfirmedAmount := 600,
        lockedConfirmedAmount := 0, availableAmount := 600,
        availableConfirmedAmount := 600 } := by
    norm_num [totalizeUtxos, sumSat, List.filter, utxoC4]
  have hamt : getTotalAmount txpC4 = 100 := by
    norm_num [getTotalAmount, txpC4, baseTxp]
  have hgc : groupCandidates txpC4 optsPlain [utxoC4] 6 = [utxoC4] := by
    simp only [groupCandidates, hx2, hx5, List.filter_cons, List.filter_nil, hc1]
    norm_num
  have hloop : selectTxInputsLoop paramsC4 txpC4 optsPlain [utxoC4] [6, 1, 0] none none
      = .ok ([utxoC4], 226) := by
    have hnone : (none : Option ℕ) ≠ some ([utxoC4].length) := by decide
    simp only [selectTxInputsLoop, hgc, if_neg hnone, hx6, hx2, select_txpC4_eval]
  unfold selectTxInputs
  rw [mkSelectParams_txpC4_eval]
  simp only [hbal, hamt, hx1, hsan, Bool.false_and, Bool.not_false, if_true]
  norm_num [hloop]

/-- Witness for C1 at the fallback scenario: the selected total 600 covers the
target 100 plus the returned fee 226. -/
theorem selectTxInputs_covers_target_plus_fee_witness :
    getTotalAmount txpC4 + optsPlain.instantAcceptanceEscrow + 226 ≤ sumSat [utxoC4] :=
  (selectTxInputs_covers_target_plus_fee addrPKH txpC4 optsPlain [utxoC4]
    (by norm_num [txpC4, baseTxp]) (by norm_num [txpC4, baseTxp])
    (by norm_num [txpC4, baseTxp])
    (by norm_num [getTotalAmount, txpC4, baseTxp, optsPlain])).1
    [utxoC4] 226 selectTxInputs_txpC4_eval

/- Claim C4. -/

/-- The dust-folding property of a loop state: when the loop stopped because
its target was reached, the recorded fee leaves no implied change in
(0, dustThreshold] (any such change was folded into the fee). -/
def TargetFoldOk (st : LoopSt) : Prop :=
  st.reachedTarget = true → ∃ f, st.fee = some f ∧
    ¬(0 < st.total - st.fullTxpAmount - f ∧ st.total - st.fullTxpAmount - f ≤ dustThreshold)

/-- Every state produced by one loop iteration satisfies the dust-folding
property. -/
theorem selStep_targetFold (P : SelectParams) (big : Bool) (st : LoopSt) (u : Utxo) :
    TargetFoldOk (selStep P big st u) := by
  unfold selStep TargetFoldOk
  dsimp only
  set f0 : ℤ := jsRound (P.baseTxpFee + (((st.selected ++ [u]).length : ℕ) : ℚ) * P.feePerInput)
    with hf0
  by_cases he : P.escrowAmount ≠ 0
  · simp only [if_pos he]
    split_ifs with hsize hr1 hr2 htar hfold
    · intro hx
      exact absurd hx (by simp)
    · intro hx
      exact absurd hx (by simp)
    · intro hx
      exact absurd hx (by simp)
    · intro _
      refine ⟨_, rfl, ?_⟩
      show ¬(0 < st.total + u.satoshis - (P.txpAmount + f0) -
          (f0 + (st.total + u.satoshis - (P.txpAmount + f0) - f0)) ∧
        st.total + u.satoshis - (P.txpAmount + f0) -
          (f0 + (st.total + u.satoshis - (P.txpAmount + f0) - f0)) ≤ dustThreshold)
      omega
    · intro _
      refine ⟨f0, rfl, ?_⟩
      show ¬(0 < st.total + u.satoshis - (P.txpAmount + f0) - f0 ∧
        st.total + u.satoshis - (P.txpAmount + f0) - f0 ≤ dustThreshold)
      exact hfold
    · intro hx
      exact absurd hx (by simp)
  · simp only [if_neg he]
    split_ifs with hsize hr1 hr2 htar hfold
    · intro hx
      exact absurd hx (by simp)
    · intro hx
      exact absurd hx (by simp)
    · intro hx
      exact absurd hx (by simp)
    · intro _
      refine ⟨_, rfl, ?_⟩
      show ¬(0 < st.total + u.satoshis - P.txpAmount -
          (f0 + (st.total + u.satoshis - P.txpAmount - f0)) ∧
        st.total + u.satoshis - P.txpAmount -
          (f0 + (st.total + u.satoshis - P.txpAmount - f0)) ≤ dustThreshold)
      omega
    · intro _
      refine ⟨f0, rfl, ?_⟩
      show ¬(0 < st.total + u.satoshis - P.txpAmount - f0 ∧
        st.total + u.satoshis - P.txpAmount - f0 ≤ dustThreshold)
      exact hfold
    · intro hx
      exact absurd hx (by simp)

/-- The accumulation loop preserves the dust-folding property. -/
theorem accumulate_targetFold (P : SelectParams) (big : Bool) (l : List Utxo) (st : LoopSt)
    (h : TargetFoldOk st) : TargetFoldOk (accumulate P big l st) := by
  induction l generalizing st with
  | nil => exact h
  | cons u rest ih =>
      unfold accumulate
      split
      · exact h
      · exact ih _ (selStep_targetFold P big st u)

/-- Claim C4 (amended): dust folding holds on the small-input accumulation
path — whenever the loop stops because its running target is reached, any
implied change in (0, dustThreshold] has been added to the fee, so the
recorded fee leaves no implied change in that window.  (The single-big-input
fallback does not fold dust change; see the counterexample.) -/
theorem accumulate_dust_folding (P : SelectParams) (hasBigInputs : Bool)
    (smallInputs : List Utxo)
    (h : (accumulate P hasBigInputs smallInputs (initLoopSt P)).reachedTarget = true) :
    ∃ f, (accumulate P hasBigInputs smallInputs (initLoopSt P)).fee = some f ∧
      ¬(0 < (accumulate P hasBigInputs smallInputs (initLoopSt P)).total -
          (accumulate P hasBigInputs smallInputs (initLoopSt P)).fullTxpAmount - f ∧
        (accumulate P hasBigInputs smallInputs (initLoopSt P)).total -
          (accumulate P hasBigInputs smallInputs (initLoopSt P)).fullTxpAmount - f ≤ dustThreshold) :=
  accumulate_targetFold P hasBigInputs smallInputs (initLoopSt P)
    (by intro hx; exact absurd hx (by simp [initLoopSt])) h

/-- The parameters of the witness run for the amended C4 theorem. -/
def paramsC4w : SelectParams :=
  { txpAmount := 100,
    escrowAmount := 0,
    baseTxpSize := 10,
    baseTxpFee := 10,
    sizePerInput := 10,
    feePerInput := 10,
    maxTxSizeInKb := 100 }

/-- A small utxo of 200 satoshis. -/
def utxoC4w : Utxo := ⟨"tw", 0, "aw", "m/0/3", 200, 6, false⟩

/-- The witness accumulation run reaches its target and folds the 80-satoshi
dust change into the fee (round(10 + 10) = 20 becomes 100). -/
theorem accumulate_txpC4w_eval :
    accumulate paramsC4w false [utxoC4w] (initLoopSt paramsC4w) =
      { total := 200, netTotal := 180, selected := [utxoC4w], fee := some 100,
        fullTxpAmount := 100, error := none, broke := true, reachedTarget := true } := by
  norm_num [accumulate, selStep, initLoopSt, paramsC4w, utxoC4w, jsRound, dustThreshold,
    MIN_OUTPUT_AMOUNT, DUST_AMOUNT]

/-- Witness for the amended C4 theorem at the concrete folding run. -/
theorem accumulate_dust_folding_witness :
    ∃ f, (accumulate paramsC4w false [utxoC4w] (initLoopSt paramsC4w)).fee = some f ∧
      ¬(0 < (accumulate paramsC4w false [utxoC4w] (initLoopSt paramsC4w)).total -
          (accumulate paramsC4w false [utxoC4w] (initLoopSt paramsC4w)).fullTxpAmount - f ∧
        (accumulate paramsC4w false [utxoC4w] (initLoopSt paramsC4w)).total -
          (accumulate paramsC4w false [utxoC4w] (initLoopSt paramsC4w)).fullTxpAmount - f ≤
            dustThreshold) :=
  accumulate_dust_folding paramsC4w false [utxoC4w] (by rw [accumulate_txpC4w_eval])

/-- Counterexample for C4: the single-big-input fallback returns a selection
whose implied change 600 − 100 − 226 = 274 lies in (0, dustThreshold] and is
NOT added to the fee (the fee stays 226, not 500), refuting the claim that
dust folding holds on every path that produces a selection. -/
theorem fallback_no_dust_folding_counterexample :
    selectTxInputs addrPKH txpC4 optsPlain [utxoC4] = .ok ([utxoC4], 226) ∧
    0 < sumSat [utxoC4] - (getTotalAmount txpC4 + optsPlain.instantAcceptanceEscrow) - 226 ∧
    sumSat [utxoC4] - (getTotalAmount txpC4 + optsPlain.instantAcceptanceEscrow) - 226 ≤
      dustThreshold := by
  refine ⟨selectTxInputs_txpC4_eval, ?_, ?_⟩ <;>
    norm_num [sumSat, utxoC4, getTotalAmount, txpC4, baseTxp, optsPlain, dustThreshold,
      MIN_OUTPUT_AMOUNT, DUST_AMOUNT]

end Bitcore
